import Mathlib

/-!
Verification of `docker_go_minimal_test_server/server.go`.

A shallow embedding of the HTTP handlers of `server.go` and of the library
calls they make (`strconv.Atoi`, `fmt.Sprintf`, `fmt.Fprintf`, the
`http.ResponseWriter`), followed by theorems about them.

Conventions of the embedding

* A Go `string` is a Lean `String` (a sequence of code points).
* The global `allocations map[string]*Memory` is an association list.  The
  operations `mapGet`, `mapSet`, `mapDelete` are the three map operations the
  source uses; the order of the list carries no meaning.
* `for key, value := range allocations` visits every entry once in an order Go
  leaves unspecified: `handleAllocations` takes the visiting order as an
  argument, and the theorems about it hold for every permutation of the
  registry.
* Go `int` is 64 bits wide.  The two additions of the source on `int`, the
  running `total` of `handleAllocations` and `count = count + 1`, wrap around
  (`wrapInt`).  A value of type `Int` stands for a Go `int` when it lies
  between `minInt` and `maxInt`.
* `C.foo` and `malloc` are represented by the number of bytes requested; the
  prints to standard output, the finalizer and `runtime.GC` are not modelled.
* The case tables of package `unicode`, which `strings.ToUpper` consults for
  the runes above ASCII, are an argument (`unicodeUpper`) of `ToUpper`,
  `mainColor` and `mainState`.
-/

namespace Server

/-! ## Go `int` and C `size_t` -/

/-- Largest Go `int` (64 bits). -/
def maxInt : Int := 9223372036854775807

/-- Smallest Go `int` (64 bits). -/
def minInt : Int := -9223372036854775808

/-- Two's-complement wrap-around of a result of Go `int` arithmetic. -/
def wrapInt (x : Int) : Int :=
  (x + 9223372036854775808) % 18446744073709551616 - 9223372036854775808

/-- Conversion `C.size_t(x)` of a Go `int` to the 64-bit unsigned `size_t`. -/
def size_t (x : Int) : Nat := (x % 18446744073709551616).toNat

/-- Number of bytes `foo` passes to `malloc`:
`sizeof(char) * count * 1024 * 1024` in `size_t` arithmetic. -/
def foo (count : Nat) : Nat := (1 * count * 1024 * 1024) % 18446744073709551616

/-! ## strconv -/

/-- The two errors of `strconv` (`ErrSyntax`, `ErrRange`). -/
inductive NumError where
  | ErrSyntax
  | ErrRange
  deriving DecidableEq, Repr

/-- The digit loop of `strconv.ParseUint(s, 10, 64)`: `n` is the value read so
far.  `1844674407370955162` is `cutoff = maxUint64/10 + 1`. -/
def ParseUintLoop : List Char → Nat → Nat × Option NumError
  | [], n => (n, none)
  | c :: cs, n =>
    if c.isDigit then
      if n ≥ 1844674407370955162 then (18446744073709551615, some NumError.ErrRange)
      else
        let n1 := n * 10 + (c.toNat - 48)
        if n1 > 18446744073709551615 then (18446744073709551615, some NumError.ErrRange)
        else ParseUintLoop cs n1
    else (0, some NumError.ErrSyntax)

/-- Go `strconv.ParseUint(s, 10, 64)`. -/
def ParseUint (s : List Char) : Nat × Option NumError :=
  match s with
  | [] => (0, some NumError.ErrSyntax)
  | _ => ParseUintLoop s 0

/-- The part of `strconv.ParseInt(s, 10, 0)` after the sign has been picked
off: `un, err` is the result of `ParseUint`. -/
def ParseIntRange (neg : Bool) (r : Nat × Option NumError) : Int × Option NumError :=
  if r.2 = some NumError.ErrSyntax then (0, some NumError.ErrSyntax)
  else if !neg && decide (r.1 ≥ 9223372036854775808) then
    (9223372036854775807, some NumError.ErrRange)
  else if neg && decide (r.1 > 9223372036854775808) then
    (-9223372036854775808, some NumError.ErrRange)
  else if neg then (-(r.1 : Int), none)
  else ((r.1 : Int), none)

/-- Go `strconv.ParseInt(s, 10, 0)` with a 64-bit `int`. -/
def ParseInt (s : List Char) : Int × Option NumError :=
  match s with
  | [] => (0, some NumError.ErrSyntax)
  | c :: cs =>
    if c = '+' then ParseIntRange false (ParseUint cs)
    else if c = '-' then ParseIntRange true (ParseUint cs)
    else ParseIntRange false (ParseUint (c :: cs))

/-- Go `strconv.Atoi(s)`: the value and the error (`none` is Go's `nil`).
`Atoi` is `ParseInt(s, 10, 0)`; its fast path for short strings returns the
same value and the same kind of error. -/
def Atoi (s : String) : Int × Option NumError := ParseInt s.data

/-! ## fmt -/

/-- Output of the verb `%d` for a Go `int`. -/
def fmtInteger (i : Int) : String :=
  match i with
  | Int.ofNat n => Nat.repr n
  | Int.negSucc n => "-" ++ Nat.repr (n + 1)

/-- Go `fmt.Sprintf("%d", count)`. -/
def Sprintf_d (count : Int) : String := fmtInteger count

/-- Go `fmt.Sprintf("%s => %d\n", key, size)`. -/
def Sprintf_s_d (key : String) (size : Int) : String :=
  key ++ " => " ++ fmtInteger size ++ "\n"

/-- Go `fmt.Sprintf("total %d\n", total)`. -/
def Sprintf_total (total : Int) : String :=
  "total " ++ fmtInteger total ++ "\n"

/-- Go `fmt.tooLarge`. -/
def tooLarge (x : Nat) : Bool := decide (x > 1000000)

/-- Go `fmt.parsenum(s, start, end)` on the slice `s[start:end]`: the number,
whether a digit was read, and the unread part of the slice (on overflow the
whole slice counts as read). -/
def parsenum : List Char → Nat → Bool → Nat × Bool × List Char
  | [], num, isnum => (num, isnum, [])
  | c :: cs, num, isnum =>
    if c.isDigit then
      if tooLarge num then (0, false, [])
      else parsenum cs (num * 10 + (c.toNat - 48)) true
    else (num, isnum, c :: cs)

/-- Go `fmt.parseArgNumber(format)` where `format` starts with `[`: the
index, the number of characters of the bracketed part, and success. -/
def parseArgNumber (format : List Char) : Int × Nat × Bool :=
  if (String.mk format).utf8ByteSize < 3 then (0, 1, false)
  else
    let inner := format.drop 1
    let j := inner.indexOf ']'
    if j < inner.length then
      let r := parsenum (inner.take j) 0 false
      if r.2.1 && r.2.2.isEmpty then ((r.1 : Int) - 1, j + 2, true)
      else (0, j + 2, false)
    else (0, 1, false)

/-- Go `(*pp).argNumber` when `Fprintf` got no operand (`numArgs = 0`):
the rest of the format, `found`, and the new value of `goodArgNum`. -/
def argNumber (goodArgNum : Bool) (format : List Char) : List Char × Bool × Bool :=
  if format.head? = some '[' then
    let r := parseArgNumber format
    if r.2.2 && decide (0 ≤ r.1) && decide (r.1 < 0) then (format.drop r.2.1, true, goodArgNum)
    else (format.drop r.2.1, r.2.2, false)
  else (format, false, goodArgNum)

/-- The flag characters skipped by the `simpleFormat` loop of `doPrintf`. -/
def isFlag (c : Char) : Bool :=
  c = '#' || c = '0' || c = '+' || c = '-' || c = ' '

/-- The width step of `doPrintf` with no operand: what is written, the rest
of the format, `afterIndex` and `goodArgNum`. -/
def widthStep (afterIndex goodArgNum : Bool) (format : List Char) :
    List Char × List Char × Bool × Bool :=
  if format.head? = some '*' then ("%!(BADWIDTH)".data, format.drop 1, false, goodArgNum)
  else
    let r := parsenum format 0 false
    ([], r.2.2, afterIndex, goodArgNum && !(afterIndex && r.2.1))

/-- The precision step of `doPrintf` with no operand; a precision is read
only when a character follows the `.` (`i+1 < end && format[i] == '.'`). -/
def precStep (afterIndex goodArgNum : Bool) (format : List Char) :
    List Char × List Char × Bool × Bool :=
  if format.head? = some '.' ∧ 1 < format.length then
    let a := argNumber (goodArgNum && !afterIndex) (format.drop 1)
    if a.1.head? = some '*' then ("%!(BADPREC)".data, a.1.drop 1, false, a.2.2)
    else ([], (parsenum a.1 0 false).2.2, a.2.1, a.2.2)
  else ([], format, afterIndex, goodArgNum)

/-- The end of a verb in `doPrintf` with no operand: `written` is what the
width and precision steps wrote, `format` starts at the verb character. -/
def verbEnd (written : List Char) (goodArgNum : Bool) (format : List Char) :
    List Char × List Char :=
  match format with
  | [] => (written ++ "%!(NOVERB)".data, [])
  | verb :: rest =>
    if verb = '%' then (written ++ ['%'], rest)
    else if !goodArgNum then (written ++ "%!".data ++ [verb] ++ "(BADINDEX)".data, rest)
    else (written ++ "%!".data ++ [verb] ++ "(MISSING)".data, rest)

/-- One verb of `doPrintf` with no operand, the `%` already read: what is
written and the rest of the format. -/
def verbStep (format : List Char) : List Char × List Char :=
  let a := argNumber true (format.dropWhile isFlag)
  let wd := widthStep a.2.1 a.2.2 a.1
  let pr := precStep wd.2.2.1 wd.2.2.2 wd.2.1
  let b := if pr.2.2.1 then (pr.2.1, pr.2.2.1, pr.2.2.2) else argNumber pr.2.2.2 pr.2.1
  verbEnd (wd.1 ++ pr.1) b.2.2 b.1

/-- Go `(*pp).doPrintf(format, nil)`: the text up to the next `%` is copied,
then one verb is processed.  Every round reads at least one character, so
`fuel = length + 1` rounds are enough. -/
def doPrintf : Nat → List Char → List Char
  | 0, _ => []
  | fuel + 1, format =>
    match format.dropWhile (fun c => c != '%') with
    | [] => format
    | _ :: afterPercent =>
      format.takeWhile (fun c => c != '%') ++ (verbStep afterPercent).1 ++
        doPrintf fuel (verbStep afterPercent).2

/-- What `fmt.Fprintf(w, format)`, called without operands, writes. -/
def formatNoArgs (format : String) : String :=
  String.mk (doPrintf (format.data.length + 1) format.data)

/-! ## http.ResponseWriter -/

/-- The response under construction: whether the header has been written,
the status code, and the data of the successive `Write` calls. -/
structure ResponseWriter where
  wroteHeader : Bool
  status : Nat
  body : List String
  deriving DecidableEq, Repr

/-- The writer a handler receives from the server: nothing written yet; a
response whose header is never written explicitly is sent with status 200. -/
def newResponseWriter : ResponseWriter :=
  { wroteHeader := false, status := 200, body := [] }

/-- Go `w.WriteHeader(code)`: only the first call counts. -/
def ResponseWriter.WriteHeader (w : ResponseWriter) (code : Nat) : ResponseWriter :=
  if w.wroteHeader then w else { w with wroteHeader := true, status := code }

/-- Go `w.Write(data)`: writes the header with status 200 first when no header
was written. -/
def ResponseWriter.Write (w : ResponseWriter) (data : String) : ResponseWriter :=
  let w1 := w.WriteHeader 200
  { w1 with body := w1.body ++ [data] }

/-- The whole body of the response. -/
def ResponseWriter.text (w : ResponseWriter) : String := String.join w.body

/-- Go `fmt.Fprintf(w, format)` without operands. -/
def Fprintf (w : ResponseWriter) (format : String) : ResponseWriter :=
  w.Write (formatNoArgs format)

/-! ## The program state -/

/-- Go `type Memory struct`: `size` is the requested amount, `memory` stands for
the native block and holds the number of bytes asked of `malloc`. -/
structure Memory where
  size : Int
  memory : Nat
  deriving DecidableEq, Repr

/-- Go `(m *Memory) alloc()`: `m.memory = C.foo(C.size_t(m.size))`. -/
def Memory.alloc (m : Memory) : Memory :=
  { m with memory := foo (size_t m.size) }

/-- Go `allocations[id]` with the comma-ok form. -/
def mapGet (m : List (String × Memory)) (id : String) : Option Memory :=
  match m with
  | [] => none
  | e :: rest => if e.1 = id then some e.2 else mapGet rest id

/-- Go `delete(allocations, id)`. -/
def mapDelete (m : List (String × Memory)) (id : String) : List (String × Memory) :=
  m.filter (fun e => e.1 != id)

/-- Go `allocations[id] = v`. -/
def mapSet (m : List (String × Memory)) (id : String) (v : Memory) :
    List (String × Memory) :=
  (id, v) :: mapDelete m id

/-- The package-level variables `color`, `allocations` and `count`. -/
structure State where
  color : String
  allocations : List (String × Memory)
  count : Int
  deriving DecidableEq, Repr

/-- The state when `main` starts to serve: `allocations = make(map...)`,
`count` at its zero value. -/
def freshState (color : String) : State :=
  { color := color, allocations := [], count := 0 }

/-! ## The handlers -/

/-- Go `handleHealth`. -/
def handleHealth (w : ResponseWriter) (s : State) : ResponseWriter × State :=
  (Fprintf w "OK", s)

/-- Go `handleRoot`. -/
def handleRoot (w : ResponseWriter) (s : State) : ResponseWriter × State :=
  (Fprintf w s.color, s)

/-- Go `handleAllocate`; `amount` is `vars["amount"]`. -/
def handleAllocate (w : ResponseWriter) (amount : String) (s : State) :
    ResponseWriter × State :=
  let r := Atoi amount
  let w1 :=
    if r.2 ≠ none then
      Fprintf (w.WriteHeader 400) "Invalid argument, amount should be an integer"
    else w
  let count := wrapInt (s.count + 1)
  let id := Sprintf_d count
  let m : Memory := { size := r.1, memory := 0 }
  let m1 := m.alloc
  (Fprintf w1 id, { s with allocations := mapSet s.allocations id m1, count := count })

/-- Go `handleDeallocate`; `id` is `vars["id"]`. -/
def handleDeallocate (w : ResponseWriter) (id : String) (s : State) :
    ResponseWriter × State :=
  match mapGet s.allocations id with
  | some _ => (Fprintf w "OK", { s with allocations := mapDelete s.allocations id })
  | none => (Fprintf (w.WriteHeader 404) "not found", s)

/-- Go `handleClear`: the loop deletes the key of every entry it visits. -/
def handleClear (w : ResponseWriter) (s : State) : ResponseWriter × State :=
  (Fprintf w "OK",
    { s with allocations :=
        s.allocations.foldl (fun m e => mapDelete m e.1) s.allocations })

/-- The `range` loop of `handleAllocations` over the entries in the order
they are visited: the running `total` and the writer. -/
def rangeAllocations (order : List (String × Memory)) (total : Int)
    (w : ResponseWriter) : Int × ResponseWriter :=
  match order with
  | [] => (total, w)
  | e :: rest =>
    rangeAllocations rest (wrapInt (total + e.2.size))
      (Fprintf w (Sprintf_s_d e.1 e.2.size))

/-- Go `handleAllocations`, the entries being visited in the order `order`
(a permutation of `s.allocations`). -/
def handleAllocations (order : List (String × Memory)) (w : ResponseWriter)
    (s : State) : ResponseWriter × State :=
  let r := rangeAllocations order 0 w
  (Fprintf r.2 (Sprintf_total r.1), s)

/-! ## Startup -/

/-- Go `strings.ToUpper`: the letters `a` to `z` lose 32, the other ASCII
characters stay, and a rune above ASCII is mapped by `unicode.ToUpper`, whose
case tables are the argument `unicodeUpper`. -/
def ToUpper (unicodeUpper : Char → Char) (s : String) : String :=
  String.mk (s.data.map (fun c =>
    if c.toNat < 128 then
      (if 'a' ≤ c ∧ c ≤ 'z' then Char.ofNat (c.toNat - 32) else c)
    else unicodeUpper c))

/-- The first statement of Go `main`: the value of `color` once the command
line `os.Args` (program name first) has been read. -/
def mainColor (unicodeUpper : Char → Char) (Args : List String) : String :=
  if Args.length > 1 ∧ Args.getD 1 "" ≠ "default" then
    ToUpper unicodeUpper (Args.getD 1 "")
  else "a multi-colored shine on all surfaces"

/-- The state in which `main` starts to serve requests. -/
def mainState (unicodeUpper : Char → Char) (Args : List String) : State :=
  freshState (mainColor unicodeUpper Args)

/-! ## Sequences of requests -/

/-- The routes of `main`. -/
inductive Request where
  | root
  | health
  | allocate (amount : String)
  | deallocate (id : String)
  | clear
  | allocations
  deriving DecidableEq, Repr

/-- The router: every request is handed a new writer. -/
def serve (r : Request) (s : State) : ResponseWriter × State :=
  match r with
  | Request.root => handleRoot newResponseWriter s
  | Request.health => handleHealth newResponseWriter s
  | Request.allocate amount => handleAllocate newResponseWriter amount s
  | Request.deallocate id => handleDeallocate newResponseWriter id s
  | Request.clear => handleClear newResponseWriter s
  | Request.allocations => handleAllocations s.allocations newResponseWriter s

/-- The state after serving the requests one after the other. -/
def run (s : State) : List Request → State
  | [] => s
  | r :: rest => run (serve r s).2 rest

/-- The responses to the requests served one after the other. -/
def responses (s : State) : List Request → List (Request × ResponseWriter)
  | [] => []
  | r :: rest => (r, (serve r s).1) :: responses (serve r s).2 rest

/-! ## Definitions used in the statements -/

/-- The value of a string of decimal digits, read from the left. -/
def decValue (cs : List Char) : Nat :=
  cs.foldl (fun a c => a * 10 + (c.toNat - 48)) 0

/-- The line `handleAllocations` writes for one entry. -/
def entryLine (e : String × Memory) : String :=
  formatNoArgs (Sprintf_s_d e.1 e.2.size)

/-- The sum of the sizes of the entries, as a mathematical integer. -/
def sumSizes (m : List (String × Memory)) : Int :=
  (m.map (fun e => e.2.size)).sum

/-- The bodies of the responses to the allocate requests, in the order of
the requests. -/
def allocateBodies : List (Request × ResponseWriter) → List (List String)
  | [] => []
  | (Request.allocate _, w) :: rest => w.body :: allocateBodies rest
  | (Request.root, _) :: rest => allocateBodies rest
  | (Request.health, _) :: rest => allocateBodies rest
  | (Request.deallocate _, _) :: rest => allocateBodies rest
  | (Request.clear, _) :: rest => allocateBodies rest
  | (Request.allocations, _) :: rest => allocateBodies rest

/-- The number of allocate requests in a sequence of requests. -/
def countAllocate : List Request → Nat
  | [] => 0
  | Request.allocate _ :: rest => countAllocate rest + 1
  | Request.root :: rest => countAllocate rest
  | Request.health :: rest => countAllocate rest
  | Request.deallocate _ :: rest => countAllocate rest
  | Request.clear :: rest => countAllocate rest
  | Request.allocations :: rest => countAllocate rest

/-- Spec side: a string of one or more decimal digits. -/
def SpecDigits (cs : List Char) : Bool :=
  !cs.isEmpty && cs.all Char.isDigit

/-- Spec side: the amount is a base-10 integer of the 64-bit range: an
optional sign `+` or `-`, then one or more decimal digits, the value lying
between -2^63 and 2^63 - 1. -/
def SpecIntegerAmount (s : List Char) : Bool :=
  match s with
  | [] => false
  | c :: cs =>
    if c = '+' then SpecDigits cs && decide (decValue cs < 9223372036854775808)
    else if c = '-' then SpecDigits cs && decide (decValue cs ≤ 9223372036854775808)
    else SpecDigits (c :: cs) && decide (decValue (c :: cs) < 9223372036854775808)

/-- The keys of the registry. -/
def keys (m : List (String × Memory)) : List String := m.map Prod.fst

/-- The invariant of the reachable states: the counter is not negative, no
key occurs twice, and every key is the decimal string of an integer between
1 and the counter. -/
def KeysInRange (s : State) : Prop :=
  0 ≤ s.count ∧ (keys s.allocations).Nodup ∧
    ∀ key ∈ keys s.allocations, ∃ k : Int, 1 ≤ k ∧ k ≤ s.count ∧ key = fmtInteger k

/-- The invariant of the states reached after `n` allocate requests, also
past the wrap-around of the counter: the counter is `n` in 64-bit arithmetic,
no key occurs twice, and every key is the decimal string of the 64-bit value
of some `k` between 1 and `n`. -/
def KeysWrapped (s : State) (n : Nat) : Prop :=
  s.count = wrapInt (n : Int) ∧ (keys s.allocations).Nodup ∧
    ∀ key ∈ keys s.allocations, ∃ k : Nat, 1 ≤ k ∧ k ≤ n ∧ key = fmtInteger (wrapInt (k : Int))

/-- The total `handleAllocations` reports when it visits the entries in the
order `order`: the number on its last line. -/
def reportedTotal (order : List (String × Memory)) : Int :=
  (rangeAllocations order 0 newResponseWriter).1

/-- Spec side: the characters after an optional leading sign. -/
def afterSign (s : List Char) : List Char :=
  match s with
  | [] => []
  | c :: cs => if c = '+' ∨ c = '-' then cs else c :: cs

/-- Spec side: the string is syntactically a signed decimal integer: an
optional sign `+` or `-`, then one or more decimal digits. -/
def SpecSignedDecimal (s : List Char) : Bool := SpecDigits (afterSign s)

/-! ## Lemmas on `wrapInt` -/

theorem wrapInt_succ (c : Int) (hlo : minInt ≤ c) (hhi : c < maxInt) :
    wrapInt (c + 1) = c + 1 := by
  unfold wrapInt; unfold minInt at hlo; unfold maxInt at hhi; omega

/-! ## Lemmas on the writer -/

theorem Fprintf_body (w : ResponseWriter) (f : String) :
    (Fprintf w f).body = w.body ++ [formatNoArgs f] := by
  unfold Fprintf ResponseWriter.Write ResponseWriter.WriteHeader
  by_cases h : w.wroteHeader <;> simp [h]

theorem Fprintf_wroteHeader (w : ResponseWriter) (f : String) :
    (Fprintf w f).wroteHeader = true := by
  unfold Fprintf ResponseWriter.Write ResponseWriter.WriteHeader
  by_cases h : w.wroteHeader <;> simp [h]

theorem Fprintf_status (w : ResponseWriter) (f : String) :
    (Fprintf w f).status = if w.wroteHeader then w.status else 200 := by
  unfold Fprintf ResponseWriter.Write ResponseWriter.WriteHeader
  by_cases h : w.wroteHeader <;> simp [h]

theorem Fprintf_new (f : String) :
    Fprintf newResponseWriter f =
      { wroteHeader := true, status := 200, body := [formatNoArgs f] } := by
  unfold Fprintf ResponseWriter.Write ResponseWriter.WriteHeader newResponseWriter
  simp

theorem Fprintf_header (code : Nat) (f : String) :
    Fprintf (newResponseWriter.WriteHeader code) f =
      { wroteHeader := true, status := code, body := [formatNoArgs f] } := by
  unfold Fprintf ResponseWriter.Write ResponseWriter.WriteHeader newResponseWriter
  simp

/-! ## Lemmas on `doPrintf` -/

theorem doPrintf_verbatim (fuel : Nat) (format : List Char) (h : '%' ∉ format) :
    doPrintf (fuel + 1) format = format := by
  have hd : format.dropWhile (fun c => c != '%') = [] := by
    rw [List.dropWhile_eq_nil_iff]
    intro c hc
    have : c ≠ '%' := fun e => h (e ▸ hc)
    simpa using this
  simp [doPrintf, hd]

theorem formatNoArgs_verbatim (format : String) (h : '%' ∉ format.data) :
    formatNoArgs format = format := by
  unfold formatNoArgs
  rw [doPrintf_verbatim _ _ h]

theorem length_dropWhile_le (p : Char → Bool) (l : List Char) :
    (l.dropWhile p).length ≤ l.length :=
  (List.dropWhile_sublist p).length_le

theorem parsenum_length (cs : List Char) (num : Nat) (isnum : Bool) :
    (parsenum cs num isnum).2.2.length ≤ cs.length := by
  induction cs generalizing num isnum with
  | nil => simp [parsenum]
  | cons c cs ih =>
    unfold parsenum
    by_cases hc : c.isDigit = true
    · by_cases ht : tooLarge num = true
      · simp [hc, ht]
      · simp only [hc, if_true, ht, Bool.false_eq_true, if_false, List.length_cons]
        exact le_trans (ih _ _) (Nat.le_succ _)
    · simp [hc]

theorem argNumber_length (g : Bool) (format : List Char) :
    (argNumber g format).1.length ≤ format.length := by
  unfold argNumber
  by_cases h : format.head? = some '['
  · simp only [h, if_true]
    split <;> simp
  · simp [h]

theorem widthStep_length (a g : Bool) (format : List Char) :
    (widthStep a g format).2.1.length ≤ format.length := by
  unfold widthStep
  by_cases h : format.head? = some '*'
  · simp [h]
  · simp only [h, if_false]
    exact parsenum_length _ _ _

theorem precStep_length (a g : Bool) (format : List Char) :
    (precStep a g format).2.1.length ≤ format.length := by
  unfold precStep
  by_cases h : format.head? = some '.' ∧ 1 < format.length
  · have h1 := argNumber_length (g && !a) (format.drop 1)
    have h2 : (format.drop 1).length ≤ format.length := by simp
    rw [if_pos h]
    by_cases hs : (argNumber (g && !a) (format.drop 1)).1.head? = some '*'
    · simp only [hs, if_true, List.length_drop]; omega
    · simp only [hs, if_false]
      exact le_trans (parsenum_length _ _ _) (le_trans h1 h2)
  · rw [if_neg h]

theorem verbEnd_length (written : List Char) (g : Bool) (format : List Char) :
    (verbEnd written g format).2.length ≤ format.length := by
  unfold verbEnd
  cases format with
  | nil => simp
  | cons verb rest =>
    simp only [List.length_cons]
    split
    · exact Nat.le_succ _
    · split <;> exact Nat.le_succ _

theorem verbStep_length (format : List Char) :
    (verbStep format).2.length ≤ format.length := by
  have h1 := length_dropWhile_le isFlag format
  have h2 := argNumber_length true (format.dropWhile isFlag)
  have h3 := widthStep_length (argNumber true (format.dropWhile isFlag)).2.1
    (argNumber true (format.dropWhile isFlag)).2.2 (argNumber true (format.dropWhile isFlag)).1
  have h4 := precStep_length
    (widthStep (argNumber true (format.dropWhile isFlag)).2.1
      (argNumber true (format.dropWhile isFlag)).2.2
      (argNumber true (format.dropWhile isFlag)).1).2.2.1
    (widthStep (argNumber true (format.dropWhile isFlag)).2.1
      (argNumber true (format.dropWhile isFlag)).2.2
      (argNumber true (format.dropWhile isFlag)).1).2.2.2
    (widthStep (argNumber true (format.dropWhile isFlag)).2.1
      (argNumber true (format.dropWhile isFlag)).2.2
      (argNumber true (format.dropWhile isFlag)).1).2.1
  unfold verbStep
  simp only
  refine le_trans (verbEnd_length _ _ _) ?_
  split
  · exact le_trans h4 (le_trans h3 (le_trans h2 h1))
  · exact le_trans (argNumber_length _ _) (le_trans h4 (le_trans h3 (le_trans h2 h1)))

/-- The fuel of `doPrintf` is enough: every amount of fuel above the length
of the format gives the same output. -/
theorem doPrintf_fuel (fuel1 : Nat) :
    ∀ (fuel2 : Nat) (format : List Char), format.length < fuel1 → format.length < fuel2 →
      doPrintf fuel1 format = doPrintf fuel2 format := by
  induction fuel1 with
  | zero => intro fuel2 format h; omega
  | succ f1 ih =>
    intro fuel2 format h1 h2
    cases fuel2 with
    | zero => omega
    | succ f2 =>
      unfold doPrintf
      have hl := length_dropWhile_le (fun c => c != '%') format
      split
      · rfl
      · rename_i c afterPercent hd
        rw [hd] at hl
        simp only [List.length_cons] at hl
        have hv := verbStep_length afterPercent
        rw [ih f2 _ (by omega) (by omega)]

/-! ## Lemmas on the map operations -/

theorem mapGet_eq_none_iff (m : List (String × Memory)) (id : String) :
    mapGet m id = none ↔ id ∉ m.map Prod.fst := by
  induction m with
  | nil => simp [mapGet]
  | cons e rest ih =>
    by_cases h : e.1 = id
    · simp [mapGet, h]
    · have h2 : ¬ id = e.1 := fun x => h x.symm
      simp [mapGet, h, h2, ih]

theorem mapGet_mapDelete_self (m : List (String × Memory)) (id : String) :
    mapGet (mapDelete m id) id = none := by
  rw [mapGet_eq_none_iff]
  simp [mapDelete]

theorem mapGet_mapDelete_ne (m : List (String × Memory)) (id k : String) (h : k ≠ id) :
    mapGet (mapDelete m id) k = mapGet m k := by
  induction m with
  | nil => simp [mapDelete, mapGet]
  | cons e rest ih =>
    unfold mapDelete at ih ⊢
    by_cases he : e.1 = id
    · have h1 : e.1 ≠ k := fun x => h (x.symm.trans he)
      have h2 : (e.1 != id) = false := by simp [he]
      rw [List.filter_cons, h2]
      simp only [Bool.false_eq_true, if_false]
      rw [ih]
      simp [mapGet, h1]
    · have h2 : (e.1 != id) = true := by simp [he]
      rw [List.filter_cons, h2]
      simp only [if_true]
      by_cases hk : e.1 = k
      · simp [mapGet, hk]
      · simp [mapGet, hk, ih]

theorem mapGet_mapSet_self (m : List (String × Memory)) (id : String) (v : Memory) :
    mapGet (mapSet m id v) id = some v := by
  simp [mapSet, mapGet]

theorem mapGet_mapSet_ne (m : List (String × Memory)) (id k : String) (v : Memory)
    (h : k ≠ id) : mapGet (mapSet m id v) k = mapGet m k := by
  have : id ≠ k := fun x => h x.symm
  simp [mapSet, mapGet, this, mapGet_mapDelete_ne m id k h]

theorem foldl_mapDelete (es m : List (String × Memory)) :
    es.foldl (fun m e => mapDelete m e.1) m =
      m.filter (fun x => decide (x.1 ∉ es.map Prod.fst)) := by
  induction es generalizing m with
  | nil => simp
  | cons e rest ih =>
    rw [List.foldl_cons, ih]
    simp only [mapDelete, List.filter_filter]
    congr 1
    funext x
    by_cases hx : x.1 = e.1 <;> by_cases hr : x.1 ∈ rest.map Prod.fst <;> simp [hx, hr]

theorem handleClear_allocations (w : ResponseWriter) (s : State) :
    (handleClear w s).2.allocations = [] := by
  simp only [handleClear, foldl_mapDelete]
  rw [List.filter_eq_nil_iff]
  intro x hx
  simp only [decide_eq_true_eq, not_not]
  exact List.mem_map_of_mem _ hx

/-! ## Lemmas on the loop of `handleAllocations` -/

theorem rangeAllocations_body (order : List (String × Memory)) (total : Int)
    (w : ResponseWriter) :
    (rangeAllocations order total w).2.body = w.body ++ order.map entryLine := by
  induction order generalizing total w with
  | nil => simp [rangeAllocations]
  | cons e rest ih =>
    simp [rangeAllocations, ih, Fprintf_body, entryLine]

theorem rangeAllocations_status (order : List (String × Memory)) (total : Int)
    (w : ResponseWriter) :
    (Fprintf (rangeAllocations order total w).2 "x").status =
      if w.wroteHeader then w.status else 200 := by
  induction order generalizing total w with
  | nil => simp [rangeAllocations, Fprintf_status]
  | cons e rest ih =>
    rw [rangeAllocations, ih, Fprintf_wroteHeader, Fprintf_status]
    simp

/-! ## Lemmas on decimal output -/

theorem decValue_append_singleton (cs : List Char) (c : Char) :
    decValue (cs ++ [c]) = decValue cs * 10 + (c.toNat - 48) := by
  simp [decValue, List.foldl_append]

theorem digitChar_lt_ten (k : Nat) (h : k < 10) :
    (Nat.digitChar k).isDigit = true ∧ (Nat.digitChar k).toNat - 48 = k := by
  interval_cases k <;> decide

theorem toDigitsCore_spec (fuel : Nat) :
    ∀ (n : Nat) (ds : List Char), n < fuel →
      ∃ D : List Char, Nat.toDigitsCore 10 fuel n ds = D ++ ds ∧ D ≠ [] ∧
        (∀ c ∈ D, c.isDigit = true) ∧ decValue D = n := by
  induction fuel with
  | zero => intro n ds h; omega
  | succ fuel ih =>
    intro n ds h
    have hd := digitChar_lt_ten (n % 10) (Nat.mod_lt _ (by decide))
    by_cases h0 : n / 10 = 0
    · refine ⟨[Nat.digitChar (n % 10)], ?_, by simp, ?_, ?_⟩
      · simp [Nat.toDigitsCore, h0]
      · intro c hc
        simp only [List.mem_singleton] at hc
        rw [hc]; exact hd.1
      · have : decValue [Nat.digitChar (n % 10)] = (Nat.digitChar (n % 10)).toNat - 48 := by
          simp [decValue]
        rw [this, hd.2]; omega
    · have hlt : n / 10 < fuel := by omega
      obtain ⟨D, hD, _, hdig, hval⟩ := ih (n / 10) (Nat.digitChar (n % 10) :: ds) hlt
      refine ⟨D ++ [Nat.digitChar (n % 10)], ?_, by simp, ?_, ?_⟩
      · simp [Nat.toDigitsCore, h0, hD]
      · intro c hc
        rcases List.mem_append.1 hc with hc | hc
        · exact hdig c hc
        · simp only [List.mem_singleton] at hc
          rw [hc]; exact hd.1
      · rw [decValue_append_singleton, hval, hd.2]; omega

theorem repr_spec (n : Nat) :
    (Nat.repr n).data ≠ [] ∧ (∀ c ∈ (Nat.repr n).data, c.isDigit = true) ∧
      decValue (Nat.repr n).data = n := by
  obtain ⟨D, hD, hne, hdig, hval⟩ := toDigitsCore_spec (n + 1) n [] (Nat.lt_succ_self n)
  have h : (Nat.repr n).data = D := by
    simp [Nat.repr, Nat.toDigits, hD, List.asString]
  rw [h]
  exact ⟨hne, hdig, hval⟩

theorem repr_injective (a b : Nat) (h : Nat.repr a = Nat.repr b) : a = b := by
  have ha := (repr_spec a).2.2
  rw [h, (repr_spec b).2.2] at ha
  exact ha.symm

theorem fmtInteger_chars (i : Int) :
    ∀ c ∈ (fmtInteger i).data, c.isDigit = true ∨ c = '-' := by
  intro c hc
  cases i with
  | ofNat n => exact Or.inl ((repr_spec n).2.1 c hc)
  | negSucc n =>
    simp only [fmtInteger, String.data_append, List.mem_append] at hc
    rcases hc with hc | hc
    · right
      simpa using hc
    · exact Or.inl ((repr_spec (n + 1)).2.1 c hc)

theorem fmtInteger_injective (a b : Int) (h : fmtInteger a = fmtInteger b) : a = b := by
  have hminus : "-".data = ['-'] := rfl
  cases a with
  | ofNat m =>
    cases b with
    | ofNat n =>
      have := repr_injective m n h
      rw [this]
    | negSucc n =>
      exfalso
      have hd : (Nat.repr m).data = ("-" ++ Nat.repr (n + 1)).data := congrArg String.data h
      rw [String.data_append, hminus] at hd
      have hm : '-' ∈ (Nat.repr m).data := by rw [hd]; simp
      have := (repr_spec m).2.1 _ hm
      exact absurd this (by decide)
  | negSucc m =>
    cases b with
    | ofNat n =>
      exfalso
      have hd : ("-" ++ Nat.repr (m + 1)).data = (Nat.repr n).data := congrArg String.data h
      rw [String.data_append, hminus] at hd
      have hm : '-' ∈ (Nat.repr n).data := by rw [← hd]; simp
      have := (repr_spec n).2.1 _ hm
      exact absurd this (by decide)
    | negSucc n =>
      have hd : ("-" ++ Nat.repr (m + 1)).data = ("-" ++ Nat.repr (n + 1)).data :=
        congrArg String.data h
      rw [String.data_append, String.data_append, hminus] at hd
      have h2 : (Nat.repr (m + 1)).data = (Nat.repr (n + 1)).data := by simpa using hd
      have h3 : Nat.repr (m + 1) = Nat.repr (n + 1) := String.ext h2
      have := repr_injective _ _ h3
      have : m = n := by omega
      rw [this]

theorem percent_not_mem_fmtInteger (i : Int) : '%' ∉ (fmtInteger i).data := by
  intro h
  rcases fmtInteger_chars i _ h with h | h
  · exact absurd h (by decide)
  · exact absurd h (by decide)

theorem formatNoArgs_Sprintf_d (i : Int) : formatNoArgs (Sprintf_d i) = Sprintf_d i :=
  formatNoArgs_verbatim _ (percent_not_mem_fmtInteger i)

theorem formatNoArgs_Sprintf_total (i : Int) :
    formatNoArgs (Sprintf_total i) = Sprintf_total i := by
  apply formatNoArgs_verbatim
  have h1 : "total ".data = ['t', 'o', 't', 'a', 'l', ' '] := rfl
  have h2 : "\n".data = ['\n'] := rfl
  simp only [Sprintf_total, String.data_append, List.mem_append, h1, h2]
  intro h
  rcases h with (h | h) | h
  · exact absurd h (by decide)
  · exact percent_not_mem_fmtInteger i h
  · exact absurd h (by decide)

theorem formatNoArgs_Sprintf_s_d (key : String) (size : Int) (hk : '%' ∉ key.data) :
    formatNoArgs (Sprintf_s_d key size) = Sprintf_s_d key size := by
  apply formatNoArgs_verbatim
  have h1 : " => ".data = [' ', '=', '>', ' '] := rfl
  have h2 : "\n".data = ['\n'] := rfl
  simp only [Sprintf_s_d, String.data_append, List.mem_append, h1, h2]
  intro h
  rcases h with ((h | h) | h) | h
  · exact hk h
  · exact absurd h (by decide)
  · exact percent_not_mem_fmtInteger size h
  · exact absurd h (by decide)

theorem handleAllocations_body (order : List (String × Memory)) (s : State) :
    (handleAllocations order newResponseWriter s).1.body =
      order.map entryLine ++ [Sprintf_total (rangeAllocations order 0 newResponseWriter).1] := by
  simp [handleAllocations, Fprintf_body, rangeAllocations_body, newResponseWriter,
    formatNoArgs_Sprintf_total]

theorem handleAllocations_status (order : List (String × Memory)) (s : State) :
    (handleAllocations order newResponseWriter s).1.status = 200 := by
  simp only [handleAllocations]
  rw [Fprintf_status]
  have h := rangeAllocations_status order 0 newResponseWriter
  rw [Fprintf_status] at h
  simpa [newResponseWriter] using h

theorem entryLine_verbatim (e : String × Memory) (h : '%' ∉ e.1.data) :
    entryLine e = e.1 ++ " => " ++ fmtInteger e.2.size ++ "\n" := by
  unfold entryLine
  rw [formatNoArgs_Sprintf_s_d _ _ h]
  rfl

/-! ## A line determines its key -/

theorem append_cons_cancel (x : Char) (a : List Char) :
    ∀ (b r1 r2 : List Char), x ∉ a → x ∉ b → a ++ x :: r1 = b ++ x :: r2 →
      a = b ∧ r1 = r2 := by
  induction a with
  | nil =>
    intro b r1 r2 _ hb h
    cases b with
    | nil => simpa using h
    | cons y b =>
      simp only [List.nil_append, List.cons_append, List.cons.injEq] at h
      exact absurd (h.1 ▸ List.mem_cons_self _ _) hb
  | cons z a ih =>
    intro b r1 r2 ha hb h
    cases b with
    | nil =>
      simp only [List.nil_append, List.cons_append, List.cons.injEq] at h
      exact absurd (h.1 ▸ List.mem_cons_self _ _) ha
    | cons y b =>
      simp only [List.cons_append, List.cons.injEq] at h
      have := ih b r1 r2 (fun hx => ha (List.mem_cons_of_mem _ hx))
        (fun hx => hb (List.mem_cons_of_mem _ hx)) h.2
      exact ⟨by rw [h.1, this.1], this.2⟩

theorem space_not_mem_fmtInteger (i : Int) : ' ' ∉ (fmtInteger i).data.reverse := by
  intro h
  rcases fmtInteger_chars i _ (List.mem_reverse.1 h) with h | h
  · exact absurd h (by decide)
  · exact absurd h (by decide)

theorem reverse_line (k : String) (n : Int) :
    (k ++ " => " ++ fmtInteger n ++ "\n").data.reverse =
      '\n' :: ((fmtInteger n).data.reverse ++ ' ' :: ('>' :: '=' :: ' ' :: k.data.reverse)) := by
  have h1 : " => ".data = [' ', '=', '>', ' '] := rfl
  have h2 : "\n".data = ['\n'] := rfl
  simp [String.data_append, h1, h2]

theorem reverse_total (t : Int) :
    (Sprintf_total t).data.reverse =
      '\n' :: ((fmtInteger t).data.reverse ++ ' ' :: ['l', 'a', 't', 'o', 't']) := by
  have h1 : "total ".data = ['t', 'o', 't', 'a', 'l', ' '] := rfl
  have h2 : "\n".data = ['\n'] := rfl
  simp [Sprintf_total, String.data_append, h1, h2]

theorem line_key_injective (k1 k2 : String) (n1 n2 : Int)
    (h : k1 ++ " => " ++ fmtInteger n1 ++ "\n" = k2 ++ " => " ++ fmtInteger n2 ++ "\n") :
    k1 = k2 := by
  have hr := congrArg (fun x : String => x.data.reverse) h
  simp only [reverse_line, List.cons.injEq, true_and] at hr
  have := (append_cons_cancel ' ' _ _ _ _ (space_not_mem_fmtInteger n1)
    (space_not_mem_fmtInteger n2) hr).2
  simp only [List.cons.injEq, true_and, List.reverse_inj] at this
  exact String.ext this

theorem total_ne_line (t : Int) (k : String) (n : Int) :
    Sprintf_total t ≠ k ++ " => " ++ fmtInteger n ++ "\n" := by
  intro h
  have hr := congrArg (fun x : String => x.data.reverse) h
  simp only [reverse_line, reverse_total, List.cons.injEq, true_and] at hr
  have := (append_cons_cancel ' ' _ _ _ _ (space_not_mem_fmtInteger t)
    (space_not_mem_fmtInteger n) hr).2
  simp only [List.cons.injEq] at this
  exact absurd this.1 (by decide)

/-- In a listing whose visited keys are free of `%` and different from `id`,
no chunk is a line `"{id} => {n}\n"`. -/
theorem no_line_for (order : List (String × Memory)) (id : String) (n : Int)
    (hp : ∀ e ∈ order, '%' ∉ e.1.data) (hid : ∀ e ∈ order, e.1 ≠ id) (t : Int) :
    id ++ " => " ++ fmtInteger n ++ "\n" ∉ order.map entryLine ++ [Sprintf_total t] := by
  intro h
  rcases List.mem_append.1 h with h | h
  · obtain ⟨e, he, hl⟩ := List.mem_map.1 h
    rw [entryLine_verbatim e (hp e he)] at hl
    exact hid e he (line_key_injective _ _ _ _ hl)
  · simp only [List.mem_singleton] at h
    exact total_ne_line t id n h.symm

/-! ## Allocate, deallocate, clear -/

/-- C1, the claim as stated is false: in the state whose counter is
9223372036854775807 the addition `count + 1` wraps around; `/allocate/5` is
answered with the body `-9223372036854775808` and the entry is registered
under that id, while the decimal string of `c + 1` is `9223372036854775808`. -/
theorem handleAllocate_wrap_counterexample :
    Atoi "5" = (5, none) ∧
    handleAllocate newResponseWriter "5"
        { color := "c", allocations := [], count := 9223372036854775807 } =
      ({ wroteHeader := true, status := 200, body := ["-9223372036854775808"] },
       { color := "c", allocations := [("-9223372036854775808", ⟨5, 5242880⟩)],
         count := -9223372036854775808 }) ∧
    fmtInteger ((9223372036854775807 : Int) + 1) = "9223372036854775808" := by
  decide

/-- C1, amended: for every state with counter `c` and every amount that `Atoi`
parses as the integer `n`, `handleAllocate` answers 200 with, as body, the
decimal string of `c + 1` computed in 64-bit arithmetic (it is `c + 1` itself
whenever `c < 2^63 - 1`); the registry then maps that id to an allocation of
size `n`, and a `handleAllocations` call made right after (whatever the
visiting order) writes the line `"{id} => {n}\n"`. -/
theorem handleAllocate_valid (s : State) (amount : String) (n : Int)
    (h : Atoi amount = (n, none)) :
    (handleAllocate newResponseWriter amount s).1.status = 200 ∧
    (handleAllocate newResponseWriter amount s).1.body =
      [fmtInteger (wrapInt (s.count + 1))] ∧
    (∃ m, mapGet (handleAllocate newResponseWriter amount s).2.allocations
        (fmtInteger (wrapInt (s.count + 1))) = some m ∧ m.size = n) ∧
    (∀ order : List (String × Memory),
      order.Perm (handleAllocate newResponseWriter amount s).2.allocations →
      (fmtInteger (wrapInt (s.count + 1)) ++ " => " ++ fmtInteger n ++ "\n") ∈
        (handleAllocations order newResponseWriter
          (handleAllocate newResponseWriter amount s).2).1.body) ∧
    (minInt ≤ s.count → s.count < maxInt → wrapInt (s.count + 1) = s.count + 1) := by
  have hw : (handleAllocate newResponseWriter amount s).1 =
      Fprintf newResponseWriter (Sprintf_d (wrapInt (s.count + 1))) := by
    simp [handleAllocate, h]
  have hs : (handleAllocate newResponseWriter amount s).2.allocations =
      mapSet s.allocations (Sprintf_d (wrapInt (s.count + 1)))
        (Memory.alloc { size := n, memory := 0 }) := by
    simp [handleAllocate, h]
  refine ⟨?_, ?_, ?_, ?_, wrapInt_succ s.count⟩
  · rw [hw, Fprintf_new]
  · rw [hw, Fprintf_new, formatNoArgs_Sprintf_d]; rfl
  · refine ⟨Memory.alloc { size := n, memory := 0 }, ?_, rfl⟩
    rw [hs]
    exact mapGet_mapSet_self _ _ _
  · intro order ho
    rw [handleAllocations_body]
    apply List.mem_append_left
    have hmem : (Sprintf_d (wrapInt (s.count + 1)),
        Memory.alloc { size := n, memory := 0 }) ∈ order := by
      rw [ho.mem_iff, hs]
      simp [mapSet]
    have hline : entryLine (Sprintf_d (wrapInt (s.count + 1)),
        Memory.alloc { size := n, memory := 0 }) =
        fmtInteger (wrapInt (s.count + 1)) ++ " => " ++ fmtInteger n ++ "\n" := by
      show formatNoArgs (Sprintf_s_d (fmtInteger (wrapInt (s.count + 1))) n) = _
      rw [formatNoArgs_Sprintf_s_d _ _ (percent_not_mem_fmtInteger _)]
      rfl
    rw [← hline]
    exact List.mem_map_of_mem _ hmem

/-- Witness of C1 (amended): the first `/allocate/5` of a new process. -/
theorem handleAllocate_valid_witness :
    Atoi "5" = (5, none) ∧
    (handleAllocate newResponseWriter "5" (freshState "c")).1.status = 200 ∧
    (handleAllocate newResponseWriter "5" (freshState "c")).1.body = ["1"] ∧
    "1 => 5\n" ∈ (handleAllocations
      (handleAllocate newResponseWriter "5" (freshState "c")).2.allocations newResponseWriter
      (handleAllocate newResponseWriter "5" (freshState "c")).2).1.body :=
  ⟨by decide,
   (handleAllocate_valid (freshState "c") "5" 5 (by decide)).1,
   (handleAllocate_valid (freshState "c") "5" 5 (by decide)).2.1,
   (handleAllocate_valid (freshState "c") "5" 5 (by decide)).2.2.2.1 _ (List.Perm.refl _)⟩

/-- C2, the claim as stated is false: in the registry with the keys `%` and
`%%`, deallocating `%` answers 200 `"OK"`, and the listing made right after
writes `"% => 5\n"`, a line for the id `%`: it is what `Fprintf` makes of the
line of the remaining key `%%`. -/
theorem handleDeallocate_line_counterexample :
    handleDeallocate newResponseWriter "%"
        { color := "c", allocations := [("%", ⟨1, 1048576⟩), ("%%", ⟨5, 5242880⟩)],
          count := 2 } =
      ({ wroteHeader := true, status := 200, body := ["OK"] },
       { color := "c", allocations := [("%%", ⟨5, 5242880⟩)], count := 2 }) ∧
    (handleAllocations [("%%", ⟨5, 5242880⟩)] newResponseWriter
        { color := "c", allocations := [("%%", ⟨5, 5242880⟩)], count := 2 }).1.body =
      ["% => 5\n", "total 5\n"] ∧
    "%" ++ " => " ++ fmtInteger 5 ++ "\n" = "% => 5\n" := by
  decide

/-- C2, amended: for every state and every id that is a key of the registry,
`handleDeallocate` answers 200 `"OK"`; afterwards the id is no longer in the
registry, every other key is looked up as before, and a `handleAllocations`
call made right after writes one chunk per remaining entry, none for that id;
when no remaining key has a `%`, no chunk is a line `"{id} => {n}\n"`. -/
theorem handleDeallocate_found (s : State) (id : String)
    (h : id ∈ s.allocations.map Prod.fst) :
    (handleDeallocate newResponseWriter id s).1 =
      { wroteHeader := true, status := 200, body := ["OK"] } ∧
    id ∉ (handleDeallocate newResponseWriter id s).2.allocations.map Prod.fst ∧
    (∀ k, k ≠ id → mapGet (handleDeallocate newResponseWriter id s).2.allocations k =
      mapGet s.allocations k) ∧
    ∀ order : List (String × Memory),
      order.Perm (handleDeallocate newResponseWriter id s).2.allocations →
      (handleAllocations order newResponseWriter
          (handleDeallocate newResponseWriter id s).2).1.body =
        order.map entryLine ++
          [Sprintf_total (rangeAllocations order 0 newResponseWriter).1] ∧
      (∀ e ∈ order, e.1 ≠ id) ∧
      ((∀ e ∈ order, '%' ∉ e.1.data) → ∀ n : Int,
        id ++ " => " ++ fmtInteger n ++ "\n" ∉
          (handleAllocations order newResponseWriter
            (handleDeallocate newResponseWriter id s).2).1.body) := by
  have hget : ∃ v, mapGet s.allocations id = some v := by
    cases hg : mapGet s.allocations id with
    | none => exact absurd h ((mapGet_eq_none_iff _ _).1 hg)
    | some v => exact ⟨v, rfl⟩
  obtain ⟨v, hv⟩ := hget
  have hr : handleDeallocate newResponseWriter id s =
      (Fprintf newResponseWriter "OK",
        { s with allocations := mapDelete s.allocations id }) := by
    simp [handleDeallocate, hv]
  rw [hr]
  have hok : formatNoArgs "OK" = "OK" := by decide
  refine ⟨?_, ?_, ?_, ?_⟩
  · rw [Fprintf_new, hok]
  · simp [mapDelete]
  · intro k hk
    exact mapGet_mapDelete_ne _ _ _ hk
  · intro order ho
    have hne : ∀ e ∈ order, e.1 ≠ id := by
      intro e he
      have : e ∈ mapDelete s.allocations id := ho.mem_iff.1 he
      simp only [mapDelete, List.mem_filter] at this
      simpa using this.2
    refine ⟨handleAllocations_body _ _, hne, ?_⟩
    intro hp n
    rw [handleAllocations_body]
    exact no_line_for order id n hp hne _

/-- Witness of C2 (amended): id `"1"` is deallocated, `"2"` is kept. -/
theorem handleDeallocate_found_witness :
    "1" ∈ ([("1", ⟨5, 5242880⟩), ("2", ⟨7, 7340032⟩)] : List (String × Memory)).map Prod.fst ∧
    (handleDeallocate newResponseWriter "1"
      { color := "c", allocations := [("1", ⟨5, 5242880⟩), ("2", ⟨7, 7340032⟩)], count := 2 }).1 =
      { wroteHeader := true, status := 200, body := ["OK"] } :=
  ⟨by decide,
   (handleDeallocate_found
      { color := "c", allocations := [("1", ⟨5, 5242880⟩), ("2", ⟨7, 7340032⟩)], count := 2 }
      "1" (by decide)).1⟩

/-- C3: for every state and every id string that is not a key of the registry,
`handleDeallocate` answers 404 `"not found"` and leaves the state (registry,
counter, greeting) as it was. -/
theorem handleDeallocate_not_found (s : State) (id : String)
    (h : id ∉ s.allocations.map Prod.fst) :
    handleDeallocate newResponseWriter id s =
      ({ wroteHeader := true, status := 404, body := ["not found"] }, s) := by
  have hg : mapGet s.allocations id = none := (mapGet_eq_none_iff _ _).2 h
  simp only [handleDeallocate, hg]
  rw [Fprintf_header]
  have : formatNoArgs "not found" = "not found" := by decide
  rw [this]

/-- Witness of C3: the key is `"1"`, the id asked for is `"01"`, which is
another string for the same number. -/
theorem handleDeallocate_not_found_witness :
    "01" ∉ ([("1", ⟨5, 5242880⟩)] : List (String × Memory)).map Prod.fst ∧
    handleDeallocate newResponseWriter "01"
      { color := "c", allocations := [("1", ⟨5, 5242880⟩)], count := 1 } =
      ({ wroteHeader := true, status := 404, body := ["not found"] },
       { color := "c", allocations := [("1", ⟨5, 5242880⟩)], count := 1 }) :=
  ⟨by decide,
   handleDeallocate_not_found
      { color := "c", allocations := [("1", ⟨5, 5242880⟩)], count := 1 } "01" (by decide)⟩

/-- C4: for every state, `handleClear` answers 200 `"OK"` and leaves the
registry empty, and a `handleAllocations` call made right after writes
exactly `"total 0\n"`. -/
theorem handleClear_then_allocations (s : State) :
    (handleClear newResponseWriter s).1 =
      { wroteHeader := true, status := 200, body := ["OK"] } ∧
    (handleClear newResponseWriter s).2.allocations = [] ∧
    ∀ order : List (String × Memory),
      order.Perm (handleClear newResponseWriter s).2.allocations →
      (handleAllocations order newResponseWriter (handleClear newResponseWriter s).2).1 =
        { wroteHeader := true, status := 200, body := ["total 0\n"] } := by
  refine ⟨?_, handleClear_allocations _ _, ?_⟩
  · have hok : formatNoArgs "OK" = "OK" := by decide
    simp only [handleClear]
    rw [Fprintf_new, hok]
  · intro order ho
    rw [handleClear_allocations] at ho
    have : order = [] := List.Perm.eq_nil ho
    subst this
    have ht : formatNoArgs (Sprintf_total 0) = "total 0\n" := by decide
    simp only [handleAllocations, rangeAllocations]
    rw [Fprintf_new, ht]

/-! ## The listing -/

theorem wrapInt_add (a b : Int) : wrapInt (wrapInt a + b) = wrapInt (a + b) := by
  unfold wrapInt; omega

theorem wrapInt_of_inRange (a : Int) (h1 : minInt ≤ a) (h2 : a ≤ maxInt) : wrapInt a = a := by
  unfold wrapInt; unfold minInt at h1; unfold maxInt at h2; omega

theorem wrapInt_idem (a : Int) : wrapInt (wrapInt a) = wrapInt a := by
  unfold wrapInt; omega

theorem rangeAllocations_total (order : List (String × Memory)) (total : Int)
    (w : ResponseWriter) (h : wrapInt total = total) :
    (rangeAllocations order total w).1 = wrapInt (total + sumSizes order) := by
  induction order generalizing total w with
  | nil => simp [rangeAllocations, sumSizes, h]
  | cons e rest ih =>
    rw [rangeAllocations, ih _ _ (wrapInt_idem _), wrapInt_add]
    simp [sumSizes, add_assoc]

theorem rangeAllocations_total_zero (order : List (String × Memory)) (w : ResponseWriter) :
    (rangeAllocations order 0 w).1 = wrapInt (sumSizes order) := by
  rw [rangeAllocations_total order 0 w (by decide)]
  simp

theorem sumSizes_perm (a b : List (String × Memory)) (h : a.Perm b) :
    sumSizes a = sumSizes b :=
  (h.map _).sum_eq

/-- C5, the claim as stated is false: (1) after two `/allocate/4611686018427387904`
requests on a new process the registry holds two entries of size 2^62, whose
sum is 2^63, and the last line is `total -9223372036854775808`; (2) in a
registry with the key `%d`, the line written for it is not
`"%d => 1\n"`. -/
theorem handleAllocations_sum_counterexample :
    ((run (freshState "c") [Request.allocate "4611686018427387904",
        Request.allocate "4611686018427387904"]).allocations =
      [("2", ⟨4611686018427387904, 0⟩), ("1", ⟨4611686018427387904, 0⟩)] ∧
     sumSizes [("2", ⟨4611686018427387904, 0⟩), ("1", ⟨4611686018427387904, 0⟩)] =
      9223372036854775808 ∧
     (handleAllocations [("2", ⟨4611686018427387904, 0⟩), ("1", ⟨4611686018427387904, 0⟩)]
        newResponseWriter
        (run (freshState "c") [Request.allocate "4611686018427387904",
          Request.allocate "4611686018427387904"])).1.body =
      ["2 => 4611686018427387904\n", "1 => 4611686018427387904\n",
       "total -9223372036854775808\n"]) ∧
    (handleAllocations [("%d", ⟨1, 1048576⟩)] newResponseWriter
        { color := "c", allocations := [("%d", ⟨1, 1048576⟩)], count := 1 }).1.body =
      ["%!d(MISSING) => 1\n", "total 1\n"] := by
  decide

/-- C5, amended: for every registry and every visiting order,
`handleAllocations` answers 200, changes neither the registry nor the counter,
and writes one chunk per entry followed by `"total {t}\n"`, where `t` is the
sum of the sizes wrapped around to the signed 64-bit range (the sum itself
when it lies in that range); the chunk of an entry whose key has no `%` is the
line `"{id} => {size}\n"`. -/
theorem handleAllocations_lines (s : State) (order : List (String × Memory))
    (h : order.Perm s.allocations) :
    (handleAllocations order newResponseWriter s).1.status = 200 ∧
    (handleAllocations order newResponseWriter s).2 = s ∧
    (handleAllocations order newResponseWriter s).1.body =
      order.map entryLine ++
        ["total " ++ fmtInteger (wrapInt (sumSizes s.allocations)) ++ "\n"] ∧
    (∀ e ∈ order, '%' ∉ e.1.data →
      entryLine e = e.1 ++ " => " ++ fmtInteger e.2.size ++ "\n") ∧
    (minInt ≤ sumSizes s.allocations → sumSizes s.allocations ≤ maxInt →
      wrapInt (sumSizes s.allocations) = sumSizes s.allocations) := by
  refine ⟨handleAllocations_status _ _, rfl, ?_, ?_, wrapInt_of_inRange _⟩
  · rw [handleAllocations_body, rangeAllocations_total_zero, sumSizes_perm _ _ h]
    rfl
  · intro e _ hk
    exact entryLine_verbatim e hk

/-- Witness of C5 (amended): two entries, visited in the order opposite to the
list. -/
theorem handleAllocations_lines_witness :
    ([("2", ⟨7, 7340032⟩), ("1", ⟨5, 5242880⟩)] : List (String × Memory)).Perm
      [("1", ⟨5, 5242880⟩), ("2", ⟨7, 7340032⟩)] ∧
    (handleAllocations [("2", ⟨7, 7340032⟩), ("1", ⟨5, 5242880⟩)] newResponseWriter
      { color := "c", allocations := [("1", ⟨5, 5242880⟩), ("2", ⟨7, 7340032⟩)],
        count := 2 }).1.status = 200 :=
  ⟨List.Perm.swap _ _ _,
   (handleAllocations_lines
      { color := "c", allocations := [("1", ⟨5, 5242880⟩), ("2", ⟨7, 7340032⟩)], count := 2 }
      [("2", ⟨7, 7340032⟩), ("1", ⟨5, 5242880⟩)] (List.Perm.swap _ _ _)).1⟩


/-! ## Validation failure and the counter -/

theorem handleAllocate_count (w : ResponseWriter) (amount : String) (s : State) :
    (handleAllocate w amount s).2.count = wrapInt (s.count + 1) := rfl

theorem handleAllocate_invalid_writer (amount : String) (s : State)
    (h : (Atoi amount).2 ≠ none) :
    (handleAllocate newResponseWriter amount s).1 =
      { wroteHeader := true, status := 400,
        body := ["Invalid argument, amount should be an integer",
          fmtInteger (wrapInt (s.count + 1))] } := by
  have hmsg : formatNoArgs "Invalid argument, amount should be an integer" =
      "Invalid argument, amount should be an integer" := by decide
  simp only [handleAllocate, h, ne_eq, not_false_eq_true, if_true]
  rw [Fprintf_header, hmsg]
  simp only [Fprintf, ResponseWriter.Write, ResponseWriter.WriteHeader, if_true]
  have := formatNoArgs_Sprintf_d (wrapInt (s.count + 1))
  simp only [Sprintf_d] at this ⊢
  rw [this]
  rfl

/-- C7, the claim as stated is false: in the state whose counter is
9223372036854775807, `/allocate/notanumber` is answered with status 400 and
the counter becomes -9223372036854775808; it has not grown by one. -/
theorem handleAllocate_invalid_wrap_counterexample :
    (Atoi "notanumber").2 ≠ none ∧
    (handleAllocate newResponseWriter "notanumber"
        { color := "c", allocations := [], count := 9223372036854775807 }).1.status = 400 ∧
    (handleAllocate newResponseWriter "notanumber"
        { color := "c", allocations := [], count := 9223372036854775807 }).2.count =
      -9223372036854775808 ∧
    (-9223372036854775808 : Int) ≠ 9223372036854775807 + 1 := by
  decide

/-- C7, amended: for every state with counter `c` and every amount on which
`Atoi` returns an error, `handleAllocate` answers with status 400, the body
starts with the message `Invalid argument, amount should be an integer`, and
the counter becomes `c + 1` computed in 64-bit arithmetic: it has grown by
exactly one whenever `c < 2^63 - 1`. -/
theorem handleAllocate_invalid (s : State) (amount : String)
    (h : (Atoi amount).2 ≠ none) :
    (handleAllocate newResponseWriter amount s).1.status = 400 ∧
    "Invalid argument, amount should be an integer".data <+:
      (handleAllocate newResponseWriter amount s).1.text.data ∧
    (handleAllocate newResponseWriter amount s).2.count = wrapInt (s.count + 1) ∧
    (minInt ≤ s.count → s.count < maxInt →
      (handleAllocate newResponseWriter amount s).2.count = s.count + 1) := by
  rw [handleAllocate_invalid_writer amount s h]
  refine ⟨rfl, ?_, rfl, fun hlo hhi => ?_⟩
  · simp only [ResponseWriter.text, String.join, List.foldl, String.data_append]
    exact ⟨(fmtInteger (wrapInt (s.count + 1))).data, by simp⟩
  · rw [handleAllocate_count, wrapInt_succ _ hlo hhi]

/-- Witness of C7 (amended): `/allocate/notanumber` on a new process. -/
theorem handleAllocate_invalid_witness :
    (Atoi "notanumber").2 ≠ none ∧
    (handleAllocate newResponseWriter "notanumber" (freshState "c")).1.status = 400 ∧
    "Invalid argument, amount should be an integer".data <+:
      (handleAllocate newResponseWriter "notanumber" (freshState "c")).1.text.data ∧
    (handleAllocate newResponseWriter "notanumber" (freshState "c")).2.count = 0 + 1 :=
  ⟨by decide,
   (handleAllocate_invalid (freshState "c") "notanumber" (by decide)).1,
   (handleAllocate_invalid (freshState "c") "notanumber" (by decide)).2.1,
   (handleAllocate_invalid (freshState "c") "notanumber" (by decide)).2.2.2
     (by decide) (by decide)⟩

theorem countAllocate_cons (r : Request) (rest : List Request) :
    countAllocate (r :: rest) = countAllocate [r] + countAllocate rest := by
  cases r <;> simp [countAllocate, Nat.add_comm]

theorem serve_count (r : Request) (s : State) :
    (serve r s).2.count = match r with
      | Request.allocate _ => wrapInt (s.count + 1)
      | _ => s.count := by
  cases r with
  | root => rfl
  | health => rfl
  | allocate a => rfl
  | deallocate id =>
    simp only [serve, handleDeallocate]
    cases mapGet s.allocations id <;> rfl
  | clear => rfl
  | allocations => rfl

theorem serve_count_eq (r : Request) (s : State) (hlo : minInt ≤ s.count)
    (hb : s.count + (countAllocate [r] : Int) ≤ maxInt) :
    (serve r s).2.count = s.count + (countAllocate [r] : Int) := by
  rw [serve_count]
  cases r with
  | allocate a =>
    simp only [countAllocate] at hb ⊢
    exact wrapInt_succ _ hlo (by push_cast at hb; omega)
  | root => simp [countAllocate]
  | health => simp [countAllocate]
  | deallocate id => simp [countAllocate]
  | clear => simp [countAllocate]
  | allocations => simp [countAllocate]

theorem run_count (reqs : List Request) (s : State) (hlo : minInt ≤ s.count)
    (hb : s.count + (countAllocate reqs : Int) ≤ maxInt) :
    (run s reqs).count = s.count + (countAllocate reqs : Int) := by
  induction reqs generalizing s with
  | nil => simp [run, countAllocate]
  | cons r rest ih =>
    rw [countAllocate_cons] at hb ⊢
    push_cast at hb ⊢
    have h1 := serve_count_eq r s hlo (by omega)
    simp only [run]
    rw [ih _ (by rw [h1]; omega) (by rw [h1]; omega), h1]
    ring

/-- C10, the claim as stated is false: in the state whose counter is
9223372036854775807, one `handleAllocate` call brings the counter to
-9223372036854775808: it has decreased, and not grown by one. -/
theorem counter_wrap_counterexample :
    (handleAllocate newResponseWriter "5"
        { color := "c", allocations := [], count := 9223372036854775807 }).2.count =
      -9223372036854775808 ∧
    (-9223372036854775808 : Int) < 9223372036854775807 ∧
    (run { color := "c", allocations := [], count := 9223372036854775807 }
      [Request.allocate "5"]).count < 9223372036854775807 := by
  decide

/-- C10, amended: `handleAllocate` replaces the counter `c` by `c + 1`
computed in 64-bit arithmetic, whatever the amount: the counter grows by
exactly one whenever `c < 2^63 - 1`; `handleDeallocate` (found or not),
`handleClear`, `handleAllocations`, `handleHealth` and `handleRoot` leave it
unchanged; along a sequence of requests whose allocate requests do not take
the counter past 2^63 - 1, the counter grows by the number of allocate
requests and so never decreases. -/
theorem counter_monotone (w : ResponseWriter) (s : State) :
    (∀ amount, (handleAllocate w amount s).2.count = wrapInt (s.count + 1)) ∧
    (∀ amount, minInt ≤ s.count → s.count < maxInt →
      (handleAllocate w amount s).2.count = s.count + 1) ∧
    (∀ id, (handleDeallocate w id s).2.count = s.count) ∧
    (handleClear w s).2.count = s.count ∧
    (∀ order, (handleAllocations order w s).2.count = s.count) ∧
    (handleHealth w s).2.count = s.count ∧
    (handleRoot w s).2.count = s.count ∧
    (∀ reqs, minInt ≤ s.count → s.count + (countAllocate reqs : Int) ≤ maxInt →
      (run s reqs).count = s.count + (countAllocate reqs : Int) ∧
      s.count ≤ (run s reqs).count) := by
  refine ⟨fun _ => rfl, ?_, ?_, rfl, fun _ => rfl, rfl, rfl, ?_⟩
  · intro amount hlo hhi
    rw [handleAllocate_count, wrapInt_succ _ hlo hhi]
  · intro id
    simp only [handleDeallocate]
    cases mapGet s.allocations id <;> rfl
  · intro reqs hlo hb
    have h := run_count reqs s hlo hb
    refine ⟨h, ?_⟩
    rw [h]
    have : (0 : Int) ≤ (countAllocate reqs : Int) := Int.natCast_nonneg _
    omega

/-- Witness of C10 (amended): three requests on a new process. -/
theorem counter_monotone_witness :
    minInt ≤ (freshState "c").count ∧
    (freshState "c").count +
      (countAllocate [Request.allocate "5", Request.clear, Request.allocate "x"] : Int) ≤
        maxInt ∧
    (run (freshState "c") [Request.allocate "5", Request.clear, Request.allocate "x"]).count =
      (freshState "c").count +
        (countAllocate [Request.allocate "5", Request.clear, Request.allocate "x"] : Int) :=
  ⟨by decide, by decide,
   ((counter_monotone newResponseWriter (freshState "c")).2.2.2.2.2.2.2
      [Request.allocate "5", Request.clear, Request.allocate "x"]
      (by decide) (by decide)).1⟩

/-! ## The ids handed out -/

theorem handleAllocate_valid_body (s : State) (amount : String)
    (h : (Atoi amount).2 = none) :
    (handleAllocate newResponseWriter amount s).1.body =
      [fmtInteger (wrapInt (s.count + 1))] := by
  have hw : (handleAllocate newResponseWriter amount s).1 =
      Fprintf newResponseWriter (Sprintf_d (wrapInt (s.count + 1))) := by
    simp [handleAllocate, h]
  rw [hw, Fprintf_new, formatNoArgs_Sprintf_d]; rfl

theorem allocateBodies_from (reqs : List Request) (s : State)
    (h : ∀ a, Request.allocate a ∈ reqs → (Atoi a).2 = none)
    (hlo : minInt ≤ s.count) (hb : s.count + (countAllocate reqs : Int) ≤ maxInt) :
    allocateBodies (responses s reqs) =
      (List.range (countAllocate reqs)).map
        (fun k : Nat => [fmtInteger (s.count + (k : Int) + 1)]) := by
  induction reqs generalizing s with
  | nil => simp [responses, allocateBodies, countAllocate]
  | cons r rest ih =>
    have hrest : ∀ a, Request.allocate a ∈ rest → (Atoi a).2 = none :=
      fun a ha => h a (List.mem_cons_of_mem _ ha)
    have hnn : (0 : Int) ≤ (countAllocate rest : Int) := Int.natCast_nonneg _
    rw [countAllocate_cons] at hb
    push_cast at hb
    have hc := serve_count_eq r s hlo (by omega)
    cases r with
    | allocate a =>
      have ha : (Atoi a).2 = none := h a (List.mem_cons_self _ _)
      have h1 : (countAllocate [Request.allocate a] : Int) = 1 := by simp [countAllocate]
      rw [h1] at hb hc
      simp only [responses, allocateBodies, countAllocate]
      rw [ih _ hrest (by rw [hc]; omega) (by rw [hc]; omega), List.range_succ_eq_map,
        List.map_cons, List.map_map, hc]
      have hb2 : (serve (Request.allocate a) s).1.body = [fmtInteger (s.count + 1)] := by
        have := handleAllocate_valid_body s a ha
        rw [wrapInt_succ _ hlo (by omega)] at this
        exact this
      rw [hb2]
      simp only [Nat.cast_zero, add_zero, List.cons.injEq, true_and]
      apply List.map_congr_left
      intro k _
      simp only [Function.comp, Nat.cast_succ]
      congr 2
      ring
    | root =>
      have h1 : (countAllocate [Request.root] : Int) = 0 := by simp [countAllocate]
      rw [h1] at hb hc
      simp only [responses, allocateBodies, countAllocate]
      rw [ih _ hrest (by rw [hc]; omega) (by rw [hc]; omega), hc, add_zero]
    | health =>
      have h1 : (countAllocate [Request.health] : Int) = 0 := by simp [countAllocate]
      rw [h1] at hb hc
      simp only [responses, allocateBodies, countAllocate]
      rw [ih _ hrest (by rw [hc]; omega) (by rw [hc]; omega), hc, add_zero]
    | deallocate id =>
      have h1 : (countAllocate [Request.deallocate id] : Int) = 0 := by simp [countAllocate]
      rw [h1] at hb hc
      simp only [responses, allocateBodies, countAllocate]
      rw [ih _ hrest (by rw [hc]; omega) (by rw [hc]; omega), hc, add_zero]
    | clear =>
      have h1 : (countAllocate [Request.clear] : Int) = 0 := by simp [countAllocate]
      rw [h1] at hb hc
      simp only [responses, allocateBodies, countAllocate]
      rw [ih _ hrest (by rw [hc]; omega) (by rw [hc]; omega), hc, add_zero]
    | allocations =>
      have h1 : (countAllocate [Request.allocations] : Int) = 0 := by simp [countAllocate]
      rw [h1] at hb hc
      simp only [responses, allocateBodies, countAllocate]
      rw [ih _ hrest (by rw [hc]; omega) (by rw [hc]; omega), hc, add_zero]

/-- C6: from the fresh state, in every sequence of requests whose allocate
requests carry valid amounts (and number at most 2^63 - 1, the largest value
of the 64-bit counter), the body of the k-th allocate response is the
decimal string of k (the bodies are `1`, `2`, `3`, ... in this order), and no
body occurs twice, whatever deallocate and clear requests lie in between. -/
theorem allocate_ids_sequence (color : String) (reqs : List Request)
    (h : ∀ a, Request.allocate a ∈ reqs → (Atoi a).2 = none)
    (hb : (countAllocate reqs : Int) ≤ maxInt) :
    allocateBodies (responses (freshState color) reqs) =
      (List.range (countAllocate reqs)).map (fun k : Nat => [fmtInteger ((k : Int) + 1)]) ∧
    (allocateBodies (responses (freshState color) reqs)).Nodup := by
  have hz : (freshState color).count = 0 := rfl
  have hb := allocateBodies_from reqs (freshState color) h (by rw [hz]; decide)
    (by rw [hz, zero_add]; exact hb)
  simp only [hz, zero_add] at hb
  refine ⟨hb, ?_⟩
  rw [hb]
  apply List.Nodup.map _ (List.nodup_range _)
  intro a b hab
  simp only [List.cons.injEq, and_true] at hab
  have := fmtInteger_injective _ _ hab
  omega

/-- Witness of C6: allocate, deallocate, allocate, clear, allocate. -/
theorem allocate_ids_sequence_witness :
    (∀ a, Request.allocate a ∈
        [Request.allocate "5", Request.deallocate "1", Request.allocate "7", Request.clear,
         Request.allocate "0"] → (Atoi a).2 = none) ∧
    ((countAllocate [Request.allocate "5", Request.deallocate "1", Request.allocate "7",
        Request.clear, Request.allocate "0"] : Nat) : Int) ≤ maxInt ∧
    allocateBodies (responses (freshState "c")
        [Request.allocate "5", Request.deallocate "1", Request.allocate "7", Request.clear,
         Request.allocate "0"]) =
      (List.range 3).map (fun k : Nat => [fmtInteger ((k : Int) + 1)]) :=
  ⟨by
    intro a ha
    simp only [List.mem_cons, Request.allocate.injEq, reduceCtorEq, List.not_mem_nil,
      false_or, or_false] at ha
    rcases ha with rfl | rfl | rfl <;> decide,
   by decide,
   (allocate_ids_sequence "c"
      [Request.allocate "5", Request.deallocate "1", Request.allocate "7", Request.clear,
       Request.allocate "0"]
      (by
        intro a ha
        simp only [List.mem_cons, Request.allocate.injEq, reduceCtorEq, List.not_mem_nil,
          false_or, or_false] at ha
        rcases ha with rfl | rfl | rfl <;> decide)
      (by decide)).1⟩

/-! ## Which amounts are accepted -/

theorem foldl_digit_le (cs : List Char) (n : Nat) :
    n ≤ cs.foldl (fun a c => a * 10 + (c.toNat - 48)) n := by
  induction cs generalizing n with
  | nil => exact le_refl _
  | cons c cs ih =>
    simp only [List.foldl_cons]
    exact le_trans (by omega) (ih _)

theorem ParseUintLoop_ok (cs : List Char) (n : Nat)
    (hd : ∀ c ∈ cs, c.isDigit = true)
    (hv : cs.foldl (fun a c => a * 10 + (c.toNat - 48)) n ≤ 18446744073709551615) :
    ParseUintLoop cs n = (cs.foldl (fun a c => a * 10 + (c.toNat - 48)) n, none) := by
  induction cs generalizing n with
  | nil => rfl
  | cons c cs ih =>
    simp only [List.foldl_cons] at hv ⊢
    have hc : c.isDigit = true := hd c (List.mem_cons_self _ _)
    have hle := foldl_digit_le cs (n * 10 + (c.toNat - 48))
    have h1 : ¬ n ≥ 1844674407370955162 := by omega
    have h2 : ¬ n * 10 + (c.toNat - 48) > 18446744073709551615 := by omega
    simp only [ParseUintLoop, hc, if_true, h1, if_false, h2]
    exact ih _ (fun x hx => hd x (List.mem_cons_of_mem _ hx)) hv

theorem ParseUintLoop_none (cs : List Char) (n : Nat) (hn : n ≤ 18446744073709551615)
    (h : (ParseUintLoop cs n).2 = none) :
    (∀ c ∈ cs, c.isDigit = true) ∧
      cs.foldl (fun a c => a * 10 + (c.toNat - 48)) n ≤ 18446744073709551615 := by
  induction cs generalizing n with
  | nil => exact ⟨by simp, hn⟩
  | cons c cs ih =>
    by_cases hc : c.isDigit = true
    · by_cases h1 : n ≥ 1844674407370955162
      · simp [ParseUintLoop, hc, h1] at h
      · by_cases h2 : n * 10 + (c.toNat - 48) > 18446744073709551615
        · simp [ParseUintLoop, hc, h1, h2] at h
        · simp only [ParseUintLoop, hc, if_true, h1, if_false, h2] at h
          have := ih _ (by omega) h
          refine ⟨?_, this.2⟩
          intro x hx
          rcases List.mem_cons.1 hx with hx | hx
          · rw [hx]; exact hc
          · exact this.1 x hx
    · simp [ParseUintLoop, hc] at h

theorem ParseUintLoop_range (cs : List Char) (n : Nat)
    (h : (ParseUintLoop cs n).2 = some NumError.ErrRange) :
    (ParseUintLoop cs n).1 = 18446744073709551615 := by
  induction cs generalizing n with
  | nil => simp [ParseUintLoop] at h
  | cons c cs ih =>
    by_cases hc : c.isDigit = true
    · by_cases h1 : n ≥ 1844674407370955162
      · simp [ParseUintLoop, hc, h1]
      · by_cases h2 : n * 10 + (c.toNat - 48) > 18446744073709551615
        · simp [ParseUintLoop, hc, h1, h2]
        · simp only [ParseUintLoop, hc, if_true, h1, if_false, h2] at h ⊢
          exact ih _ h
    · simp [ParseUintLoop, hc] at h

theorem ParseUint_range (cs : List Char) (h : (ParseUint cs).2 = some NumError.ErrRange) :
    (ParseUint cs).1 = 18446744073709551615 := by
  cases cs with
  | nil => simp [ParseUint] at h
  | cons c cs => exact ParseUintLoop_range _ _ h

theorem ParseUint_none_iff (cs : List Char) :
    (ParseUint cs).2 = none ↔
      SpecDigits cs = true ∧ decValue cs ≤ 18446744073709551615 := by
  cases cs with
  | nil => simp [ParseUint, SpecDigits]
  | cons c cs =>
    constructor
    · intro h
      have := ParseUintLoop_none (c :: cs) 0 (by omega) h
      refine ⟨?_, this.2⟩
      simp only [SpecDigits, List.isEmpty_cons, Bool.not_false, Bool.true_and, List.all_eq_true]
      exact this.1
    · intro h
      have hd : ∀ x ∈ c :: cs, x.isDigit = true := by
        have := h.1
        simp only [SpecDigits, List.isEmpty_cons, Bool.not_false, Bool.true_and,
          List.all_eq_true] at this
        exact this
      have := ParseUintLoop_ok (c :: cs) 0 hd h.2
      simp only [ParseUint]
      rw [this]

theorem ParseUint_value (cs : List Char) (h : (ParseUint cs).2 = none) :
    (ParseUint cs).1 = decValue cs := by
  have h2 := (ParseUint_none_iff cs).1 h
  cases cs with
  | nil => simp [SpecDigits] at h2
  | cons c cs =>
    have hd : ∀ x ∈ c :: cs, x.isDigit = true := by
      have := h2.1
      simp only [SpecDigits, List.isEmpty_cons, Bool.not_false, Bool.true_and,
        List.all_eq_true] at this
      exact this
    have := ParseUintLoop_ok (c :: cs) 0 hd h2.2
    simp only [ParseUint]
    rw [this]
    rfl

theorem ParseIntRange_none_iff (neg : Bool) (cs : List Char) :
    (ParseIntRange neg (ParseUint cs)).2 = none ↔
      SpecDigits cs = true ∧
        (if neg then decValue cs ≤ 9223372036854775808
          else decValue cs < 9223372036854775808) := by
  cases he : (ParseUint cs).2 with
  | none =>
    have hv := ParseUint_value cs he
    have hs := (ParseUint_none_iff cs).1 he
    cases neg
    · by_cases hlt : decValue cs < 9223372036854775808
      · have : ¬ (ParseUint cs).1 ≥ 9223372036854775808 := by omega
        simp [ParseIntRange, he, this, hs.1, hlt]
      · have : (ParseUint cs).1 ≥ 9223372036854775808 := by omega
        simp [ParseIntRange, he, this, hlt]
    · by_cases hle : decValue cs ≤ 9223372036854775808
      · have : ¬ (ParseUint cs).1 > 9223372036854775808 := by omega
        simp [ParseIntRange, he, this, hs.1, hle]
      · have : (ParseUint cs).1 > 9223372036854775808 := by omega
        simp [ParseIntRange, he, this, hle]
  | some e =>
    have hn : ¬ (SpecDigits cs = true ∧ decValue cs ≤ 18446744073709551615) := by
      intro h
      have := (ParseUint_none_iff cs).2 h
      rw [he] at this
      exact absurd this (by simp)
    have hfalse : ¬ (SpecDigits cs = true ∧
        (if neg then decValue cs ≤ 9223372036854775808
          else decValue cs < 9223372036854775808)) := by
      intro h
      apply hn
      refine ⟨h.1, ?_⟩
      have := h.2
      cases neg <;> simp at this <;> omega
    cases e with
    | ErrSyntax => simp only [ParseIntRange, he, if_true]; simpa using hfalse
    | ErrRange =>
      have hv := ParseUint_range cs he
      have hl : (if neg then decValue cs ≤ 9223372036854775808
          else decValue cs < 9223372036854775808) → SpecDigits cs = false := by
        intro h2
        by_contra h3
        exact hfalse ⟨by simpa using h3, h2⟩
      cases neg
      · have hL : (ParseIntRange false (ParseUint cs)).2 = some NumError.ErrRange := by
          simp [ParseIntRange, he, hv]
        rw [hL]
        constructor
        · intro h; exact absurd h (by simp)
        · intro h; exact absurd h hfalse
      · have hL : (ParseIntRange true (ParseUint cs)).2 = some NumError.ErrRange := by
          simp [ParseIntRange, he, hv]
        rw [hL]
        constructor
        · intro h; exact absurd h (by simp)
        · intro h; exact absurd h hfalse

theorem Atoi_none_iff (amount : String) :
    (Atoi amount).2 = none ↔ SpecIntegerAmount amount.data = true := by
  unfold Atoi
  cases amount.data with
  | nil => simp [ParseInt, SpecIntegerAmount]
  | cons c cs =>
    by_cases hp : c = '+'
    · have := ParseIntRange_none_iff false cs
      simp only [ParseInt, SpecIntegerAmount, hp, if_true]
      rw [this]; simp
    · by_cases hm : c = '-'
      · have := ParseIntRange_none_iff true cs
        simp only [ParseInt, SpecIntegerAmount, if_neg hp, if_pos hm]
        rw [this]; simp
      · have := ParseIntRange_none_iff false (c :: cs)
        simp only [ParseInt, SpecIntegerAmount, if_neg hp, if_neg hm]
        rw [this]; simp

theorem handleAllocate_status (amount : String) (s : State) :
    (handleAllocate newResponseWriter amount s).1.status =
      if (Atoi amount).2 = none then 200 else 400 := by
  by_cases h : (Atoi amount).2 = none
  · have hw : (handleAllocate newResponseWriter amount s).1 =
        Fprintf newResponseWriter (Sprintf_d (wrapInt (s.count + 1))) := by
      simp [handleAllocate, h]
    rw [hw, Fprintf_new]; simp [h]
  · rw [handleAllocate_invalid_writer amount s h]; simp [h]

/-- C8, the claim as stated is false: the amount `-5` is not a non-negative
integer, yet `handleAllocate` answers 200 and registers an allocation of size
-5. -/
theorem handleAllocate_negative_counterexample :
    Atoi "-5" = (-5, none) ∧
    handleAllocate newResponseWriter "-5" (freshState "c") =
      ({ wroteHeader := true, status := 200, body := ["1"] },
       { color := "c", allocations := [("1", ⟨-5, 18446744073704308736⟩)], count := 1 }) := by
  decide

/-- C8, amended: `handleAllocate` answers 200 exactly when the amount is a
base-10 integer of the 64-bit range, of either sign (an optional `+` or `-`,
then one or more decimal digits, the value between -2^63 and 2^63 - 1), and
answers 400 for every other amount. -/
theorem handleAllocate_accepts_iff (s : State) (amount : String) :
    ((handleAllocate newResponseWriter amount s).1.status = 200 ↔
      SpecIntegerAmount amount.data = true) ∧
    ((handleAllocate newResponseWriter amount s).1.status = 400 ↔
      SpecIntegerAmount amount.data = false) := by
  rw [handleAllocate_status]
  have hiff := Atoi_none_iff amount
  by_cases h : (Atoi amount).2 = none
  · have ht : SpecIntegerAmount amount.data = true := hiff.1 h
    simp [h, ht]
  · have hf : SpecIntegerAmount amount.data = false := by
      cases hb : SpecIntegerAmount amount.data with
      | false => rfl
      | true => exact absurd (hiff.2 hb) h
    simp [h, hf]

/-! ## Entries registered by rejected requests -/

/-- C9, the code at the failing input: `/allocate/notanumber` on a new process
is answered with status 400, and the registry then holds the id `1` with
size 0. -/
theorem rejected_allocate_is_registered :
    serve (Request.allocate "notanumber") (freshState "c") =
      ({ wroteHeader := true, status := 400,
         body := ["Invalid argument, amount should be an integer", "1"] },
       { color := "c", allocations := [("1", ⟨0, 0⟩)], count := 1 }) := by
  decide

/-! ## Root, health and startup -/

theorem handleRoot_verbatim (s : State) (h : '%' ∉ s.color.data) :
    handleRoot newResponseWriter s =
      ({ wroteHeader := true, status := 200, body := [s.color] }, s) := by
  simp only [handleRoot]
  rw [Fprintf_new, formatNoArgs_verbatim _ h]

/-- C11, the code at the failing input: started as `server 100%`, the
greeting is `100%`, and `handleRoot` answers with the body `100%!(NOVERB)`,
which is not the greeting; the state is left as it was. -/
theorem handleRoot_percent (unicodeUpper : Char → Char) :
    mainColor unicodeUpper ["server", "100%"] = "100%" ∧
    handleRoot newResponseWriter (mainState unicodeUpper ["server", "100%"]) =
      ({ wroteHeader := true, status := 200, body := ["100%!(NOVERB)"] },
       { color := "100%", allocations := [], count := 0 }) := by
  have hc : mainColor unicodeUpper ["server", "100%"] = "100%" := by
    simp [mainColor, ToUpper]
  refine ⟨hc, ?_⟩
  simp only [mainState, hc, handleRoot, freshState]
  rw [Fprintf_new]
  have : formatNoArgs "100%" = "100%!(NOVERB)" := by decide
  rw [this]

/-- C12: for every state, `handleHealth` answers 200 `"OK"` and returns the
state (registry, counter, greeting) as it was. -/
theorem handleHealth_ok (s : State) :
    handleHealth newResponseWriter s =
      ({ wroteHeader := true, status := 200, body := ["OK"] }, s) := by
  have hok : formatNoArgs "OK" = "OK" := by decide
  simp only [handleHealth]
  rw [Fprintf_new, hok]

theorem asciiUpper_eq (c : Char) :
    (if 'a' ≤ c ∧ c ≤ 'z' then Char.ofNat (c.toNat - 32) else c) = c.toUpper := by
  unfold Char.toUpper
  have h1 : ('a' ≤ c) ↔ c.toNat ≥ 97 := by
    show ('a'.val ≤ c.val) ↔ _
    rw [UInt32.le_def]
    rfl
  have h2 : (c ≤ 'z') ↔ c.toNat ≤ 122 := by
    show (c.val ≤ 'z'.val) ↔ _
    rw [UInt32.le_def]
    rfl
  simp only [h1, h2]

theorem toUpper_not_lower (c : Char) : c.toUpper.isLower = false := by
  by_cases h : c.toNat ≥ 97 ∧ c.toNat ≤ 122
  · have hc : c = Char.ofNat c.toNat := (Char.ofNat_toNat c).symm
    obtain ⟨h1, h2⟩ := h
    generalize c.toNat = n at hc h1 h2
    subst hc
    interval_cases n <;> decide
  · have hu : c.toUpper = c := by
      unfold Char.toUpper
      simp only [h, if_false]
    rw [hu]
    unfold Char.isLower
    have h1 : (c.val ≥ 97) = (c.toNat ≥ 97) := by
      show (c.val ≥ 97) = _
      rw [ge_iff_le, UInt32.le_def]; rfl
    have h2 : (c.val ≤ 122) = (c.toNat ≤ 122) := by
      rw [UInt32.le_def]; rfl
    simp only [h1, h2]
    by_cases ha : c.toNat ≥ 97
    · by_cases hb : c.toNat ≤ 122
      · exact absurd ⟨ha, hb⟩ h
      · simp [hb]
    · simp [ha]

theorem ToUpper_data (unicodeUpper : Char → Char) (a : String) :
    ToUpper unicodeUpper a =
      String.mk (a.data.map (fun c => if c.toNat < 128 then c.toUpper else unicodeUpper c)) := by
  unfold ToUpper
  have hf : (fun c : Char => if c.toNat < 128 then
      (if 'a' ≤ c ∧ c ≤ 'z' then Char.ofNat (c.toNat - 32) else c) else unicodeUpper c) =
      (fun c => if c.toNat < 128 then c.toUpper else unicodeUpper c) := by
    funext c
    rw [asciiUpper_eq]
  rw [hf]

theorem ToUpper_ascii (unicodeUpper : Char → Char) (a : String)
    (h : ∀ c ∈ a.data, c.toNat < 128) :
    ToUpper unicodeUpper a = String.mk (a.data.map Char.toUpper) := by
  rw [ToUpper_data]
  congr 1
  apply List.map_congr_left
  intro c hc
  simp only [h c hc, if_true]

/-- C13: for every command line, the greeting set at startup is the default
sentence when `os.Args` has no element after the program name or when that
element is exactly `default`; otherwise it is that element upper-cased: every
ASCII character is replaced by its capital (`Char.toUpper`) and every rune
above ASCII by `unicode.ToUpper` of it, so that for an ASCII argument the
greeting is the argument in capitals and holds no lower-case letter. -/
theorem mainColor_cases (unicodeUpper : Char → Char) (prog a : String)
    (rest : List String) :
    mainColor unicodeUpper [] = "a multi-colored shine on all surfaces" ∧
    mainColor unicodeUpper [prog] = "a multi-colored shine on all surfaces" ∧
    mainColor unicodeUpper (prog :: "default" :: rest) =
      "a multi-colored shine on all surfaces" ∧
    mainColor unicodeUpper (prog :: a :: rest) =
      (if a = "default" then "a multi-colored shine on all surfaces"
        else String.mk (a.data.map
          (fun c => if c.toNat < 128 then c.toUpper else unicodeUpper c))) ∧
    ((∀ c ∈ a.data, c.toNat < 128) → a ≠ "default" →
      mainColor unicodeUpper (prog :: a :: rest) = String.mk (a.data.map Char.toUpper) ∧
      ∀ c ∈ (mainColor unicodeUpper (prog :: a :: rest)).data, c.isLower = false) ∧
    mainColor unicodeUpper ["server", "red"] = "RED" ∧
    mainColor unicodeUpper ["server", "Dark-blue 7"] = "DARK-BLUE 7" := by
  have hcase : mainColor unicodeUpper (prog :: a :: rest) =
      (if a = "default" then "a multi-colored shine on all surfaces"
        else ToUpper unicodeUpper a) := by
    by_cases h : a = "default"
    · simp [mainColor, h]
    · simp [mainColor, h]
  refine ⟨?_, ?_, ?_, ?_, ?_, ?_, ?_⟩
  · simp [mainColor]
  · simp [mainColor]
  · simp [mainColor]
  · rw [hcase, ToUpper_data]
  · intro hascii hne
    rw [hcase, if_neg hne, ToUpper_ascii _ _ hascii]
    refine ⟨rfl, ?_⟩
    intro c hc
    simp only [List.mem_map] at hc
    obtain ⟨d, _, hd⟩ := hc
    rw [← hd]
    exact toUpper_not_lower d
  · simp [mainColor, ToUpper]
  · simp [mainColor, ToUpper]

theorem mainColor_samples (unicodeUpper : Char → Char) :
    mainColor unicodeUpper ["server", "red"] = "RED" ∧
    mainColor unicodeUpper ["server", "Default"] = "DEFAULT" ∧
    mainColor unicodeUpper ["server", "default", "red"] =
      "a multi-colored shine on all surfaces" := by
  refine ⟨?_, ?_, ?_⟩
  · simp [mainColor, ToUpper]
  · simp [mainColor, ToUpper]
  · simp [mainColor]

/-! ## The size of the native block -/

theorem foo_size_t (n : Int) :
    foo (size_t n) = ((n % 18446744073709551616).toNat * 1048576) % 18446744073709551616 := by
  have hx : ∀ x : Nat, 1 * x * 1024 * 1024 = x * 1048576 := fun x => by omega
  unfold foo size_t
  rw [hx]

theorem foo_size_t_small (n : Int) (h0 : 0 ≤ n) (h1 : n < 17592186044416) :
    (foo (size_t n) : Int) = n * 1048576 := by
  rw [foo_size_t]
  have hm : n % 18446744073709551616 = n := Int.emod_eq_of_lt h0 (by omega)
  rw [hm]
  have hn : ((n.toNat : Nat) : Int) = n := Int.toNat_of_nonneg h0
  have hlt : n.toNat * 1048576 < 18446744073709551616 := by omega
  rw [Nat.mod_eq_of_lt hlt]
  push_cast
  rw [hn]

/-- C14, the claim as stated is false: `handleAllocate` accepts the amount
17592186044416 (2^44) and asks `malloc` for 0 bytes, and accepts the amount
-1 and asks for 2^64 - 2^20 bytes; neither is the amount times 1048576. -/
theorem alloc_bytes_counterexample :
    (Atoi "17592186044416" = (17592186044416, none) ∧
     (handleAllocate newResponseWriter "17592186044416" (freshState "c")).1.status = 200 ∧
     (handleAllocate newResponseWriter "17592186044416" (freshState "c")).2.allocations =
       [("1", ⟨17592186044416, 0⟩)] ∧
     (17592186044416 : Int) * 1048576 ≠ 0) ∧
    (Atoi "-1" = (-1, none) ∧
     (handleAllocate newResponseWriter "-1" (freshState "c")).1.status = 200 ∧
     (handleAllocate newResponseWriter "-1" (freshState "c")).2.allocations =
       [("1", ⟨-1, 18446744073708503040⟩)] ∧
     (-1 : Int) * 1048576 ≠ 18446744073708503040) := by
  decide

/-- C14, amended: for every amount `n` that `handleAllocate` accepts, the
number of bytes asked of the native allocator is `n` reduced modulo 2^64 (the
conversion to `size_t`) times 1048576, reduced modulo 2^64 again; it is
exactly `n * 1048576` when `0 ≤ n < 2^44`. -/
theorem handleAllocate_bytes (s : State) (amount : String) (n : Int)
    (h : Atoi amount = (n, none)) :
    ∃ m, mapGet (handleAllocate newResponseWriter amount s).2.allocations
        (fmtInteger (wrapInt (s.count + 1))) = some m ∧ m.size = n ∧
      m.memory = ((n % 18446744073709551616).toNat * 1048576) % 18446744073709551616 ∧
      (0 ≤ n → n < 17592186044416 → (m.memory : Int) = n * 1048576) := by
  have hs : (handleAllocate newResponseWriter amount s).2.allocations =
      mapSet s.allocations (Sprintf_d (wrapInt (s.count + 1)))
        (Memory.alloc { size := n, memory := 0 }) := by
    simp [handleAllocate, h]
  refine ⟨Memory.alloc { size := n, memory := 0 }, ?_, rfl, foo_size_t n, foo_size_t_small n⟩
  rw [hs]
  exact mapGet_mapSet_self _ _ _

/-- Witness of C14 (amended): `/allocate/5` asks for 5242880 bytes. -/
theorem handleAllocate_bytes_witness :
    Atoi "5" = (5, none) ∧
    ∃ m, mapGet (handleAllocate newResponseWriter "5" (freshState "c")).2.allocations
        (fmtInteger (wrapInt ((freshState "c").count + 1))) = some m ∧ m.size = 5 ∧
      m.memory = (((5 : Int) % 18446744073709551616).toNat * 1048576) % 18446744073709551616 ∧
      (0 ≤ (5 : Int) → (5 : Int) < 17592186044416 → (m.memory : Int) = 5 * 1048576) :=
  ⟨by decide, handleAllocate_bytes (freshState "c") "5" 5 (by decide)⟩

/-! ## The fall-through after a rejected amount -/

theorem ParseUintLoop_syntaxError (cs : List Char) (n : Nat)
    (hne : cs.takeWhile Char.isDigit ≠ cs)
    (hv : (cs.takeWhile Char.isDigit).foldl (fun a c => a * 10 + (c.toNat - 48)) n ≤
      18446744073709551615) :
    ParseUintLoop cs n = (0, some NumError.ErrSyntax) := by
  induction cs generalizing n with
  | nil => simp at hne
  | cons c cs ih =>
    by_cases hc : c.isDigit = true
    · simp only [List.takeWhile_cons, hc, if_true, List.foldl_cons] at hv hne
      have hle := foldl_digit_le (cs.takeWhile Char.isDigit) (n * 10 + (c.toNat - 48))
      have h1 : ¬ n ≥ 1844674407370955162 := by omega
      have h2 : ¬ n * 10 + (c.toNat - 48) > 18446744073709551615 := by omega
      simp only [ParseUintLoop, hc, if_true, h1, if_false, h2]
      exact ih _ (fun h => hne (by rw [h])) hv
    · simp [ParseUintLoop, hc]

theorem ParseUint_syntaxError (cs : List Char) (hs : SpecDigits cs = false)
    (hv : decValue (cs.takeWhile Char.isDigit) ≤ 18446744073709551615) :
    ParseUint cs = (0, some NumError.ErrSyntax) := by
  cases cs with
  | nil => rfl
  | cons c cs =>
    have hne : (c :: cs).takeWhile Char.isDigit ≠ c :: cs := by
      intro h
      have hall : ∀ x ∈ c :: cs, x.isDigit = true := by
        intro x hx
        rw [← h] at hx
        exact (List.mem_takeWhile_imp hx)
      have : SpecDigits (c :: cs) = true := by
        simp only [SpecDigits, List.isEmpty_cons, Bool.not_false, Bool.true_and,
          List.all_eq_true]
        exact hall
      rw [hs] at this
      exact absurd this (by simp)
    exact ParseUintLoop_syntaxError (c :: cs) 0 hne hv

theorem ParseIntRange_syntaxError (neg : Bool) :
    ParseIntRange neg (0, some NumError.ErrSyntax) = (0, some NumError.ErrSyntax) := by
  simp [ParseIntRange]

theorem Atoi_syntaxError (amount : String) (hs : SpecSignedDecimal amount.data = false)
    (hv : decValue ((afterSign amount.data).takeWhile Char.isDigit) ≤ 18446744073709551615) :
    Atoi amount = (0, some NumError.ErrSyntax) := by
  unfold Atoi
  unfold SpecSignedDecimal at hs
  cases hd : amount.data with
  | nil => rfl
  | cons c cs =>
    rw [hd] at hs hv
    by_cases hp : c = '+'
    · have ha : afterSign (c :: cs) = cs := by simp [afterSign, hp]
      rw [ha] at hs hv
      simp only [ParseInt, hp, if_true]
      rw [ParseUint_syntaxError cs hs hv, ParseIntRange_syntaxError]
    · by_cases hm : c = '-'
      · have ha : afterSign (c :: cs) = cs := by simp [afterSign, hm]
        rw [ha] at hs hv
        simp only [ParseInt, if_neg hp, if_pos hm]
        rw [ParseUint_syntaxError cs hs hv, ParseIntRange_syntaxError]
      · have ha : afterSign (c :: cs) = c :: cs := by simp [afterSign, hp, hm]
        rw [ha] at hs hv
        simp only [ParseInt, if_neg hp, if_neg hm]
        rw [ParseUint_syntaxError (c :: cs) hs hv, ParseIntRange_syntaxError]

/-- C15, the claim as stated is false: (1) `99999999999999999999x` is not a
signed decimal integer, yet the entry `handleAllocate` registers for it has
size 9223372036854775807, not 0, because `Atoi` reports the overflow of the
digits before it reads the `x`; (2) in the state whose counter is
9223372036854775807, the id appended to the message and registered for
`notanumber` is `-9223372036854775808`, not the decimal string of `c + 1`. -/
theorem fall_through_size_counterexample :
    (SpecSignedDecimal "99999999999999999999x".data = false ∧
     Atoi "99999999999999999999x" = (9223372036854775807, some NumError.ErrRange) ∧
     handleAllocate newResponseWriter "99999999999999999999x" (freshState "c") =
       ({ wroteHeader := true, status := 400,
          body := ["Invalid argument, amount should be an integer", "1"] },
        { color := "c",
          allocations := [("1", ⟨9223372036854775807, 18446744073708503040⟩)],
          count := 1 })) ∧
    (SpecSignedDecimal "notanumber".data = false ∧
     handleAllocate newResponseWriter "notanumber"
         { color := "c", allocations := [], count := 9223372036854775807 } =
       ({ wroteHeader := true, status := 400,
          body := ["Invalid argument, amount should be an integer",
            "-9223372036854775808"] },
        { color := "c", allocations := [("-9223372036854775808", ⟨0, 0⟩)],
          count := -9223372036854775808 }) ∧
     fmtInteger ((9223372036854775807 : Int) + 1) = "9223372036854775808") := by
  decide

/-- C15, amended: for every state with counter `c` and every amount that is
not syntactically a signed decimal integer and whose leading run of digits
(after an optional sign) has a value of at most 2^64 - 1, `handleAllocate`
writes status 400 and still performs the allocation: it registers an entry of
size 0 under the id that is the decimal string of `c + 1` computed in 64-bit
arithmetic (`c + 1` itself whenever `c < 2^63 - 1`), the counter takes that
value, and the body is the error message immediately followed by that id. -/
theorem handleAllocate_fall_through (s : State) (amount : String)
    (hs : SpecSignedDecimal amount.data = false)
    (hv : decValue ((afterSign amount.data).takeWhile Char.isDigit) ≤ 18446744073709551615) :
    (handleAllocate newResponseWriter amount s).1.status = 400 ∧
    (handleAllocate newResponseWriter amount s).1.body =
      ["Invalid argument, amount should be an integer",
        fmtInteger (wrapInt (s.count + 1))] ∧
    (handleAllocate newResponseWriter amount s).1.text =
      "Invalid argument, amount should be an integer" ++
        fmtInteger (wrapInt (s.count + 1)) ∧
    mapGet (handleAllocate newResponseWriter amount s).2.allocations
      (fmtInteger (wrapInt (s.count + 1))) = some { size := 0, memory := 0 } ∧
    (handleAllocate newResponseWriter amount s).2.count = wrapInt (s.count + 1) ∧
    (minInt ≤ s.count → s.count < maxInt → wrapInt (s.count + 1) = s.count + 1) := by
  have ha := Atoi_syntaxError amount hs hv
  have he : (Atoi amount).2 ≠ none := by rw [ha]; simp
  have hw := handleAllocate_invalid_writer amount s he
  have hst : (handleAllocate newResponseWriter amount s).2.allocations =
      mapSet s.allocations (Sprintf_d (wrapInt (s.count + 1)))
        (Memory.alloc { size := 0, memory := 0 }) := by
    simp [handleAllocate, ha]
  refine ⟨by rw [hw], by rw [hw], ?_, ?_, rfl, wrapInt_succ s.count⟩
  · rw [hw]
    simp [ResponseWriter.text, String.join]
  · rw [hst]
    exact mapGet_mapSet_self _ _ _

/-- Witness of C15 (amended): `/allocate/notanumber` on a new process. -/
theorem handleAllocate_fall_through_witness :
    SpecSignedDecimal "notanumber".data = false ∧
    decValue ((afterSign "notanumber".data).takeWhile Char.isDigit) ≤ 18446744073709551615 ∧
    (handleAllocate newResponseWriter "notanumber" (freshState "c")).1.status = 400 ∧
    (handleAllocate newResponseWriter "notanumber" (freshState "c")).1.body =
      ["Invalid argument, amount should be an integer",
        fmtInteger (wrapInt ((freshState "c").count + 1))] :=
  ⟨by decide, by decide,
   (handleAllocate_fall_through (freshState "c") "notanumber" (by decide) (by decide)).1,
   (handleAllocate_fall_through (freshState "c") "notanumber" (by decide) (by decide)).2.1⟩

/-! ## The invariant of the reachable states -/

theorem mem_keys_mapDelete (m : List (String × Memory)) (id key : String)
    (h : key ∈ keys (mapDelete m id)) : key ∈ keys m ∧ key ≠ id := by
  simp only [keys, mapDelete, List.mem_map, List.mem_filter] at h ⊢
  obtain ⟨e, ⟨he, hne⟩, hk⟩ := h
  refine ⟨⟨e, he, hk⟩, ?_⟩
  rw [← hk]
  simpa using hne

theorem nodup_keys_mapDelete (m : List (String × Memory)) (id : String)
    (h : (keys m).Nodup) : (keys (mapDelete m id)).Nodup := by
  unfold keys mapDelete
  exact List.Nodup.sublist (List.Sublist.map _ (List.filter_sublist _)) h

theorem mapDelete_of_not_mem (m : List (String × Memory)) (id : String)
    (h : id ∉ keys m) : mapDelete m id = m := by
  unfold mapDelete
  rw [List.filter_eq_self]
  intro e he
  have : e.1 ≠ id := by
    intro heq
    exact h (by rw [← heq]; exact List.mem_map_of_mem _ he)
  simpa using this

theorem fresh_id_not_mem (s : State) (h : KeysInRange s) :
    fmtInteger (s.count + 1) ∉ keys s.allocations := by
  intro hmem
  obtain ⟨k, _, hk, heq⟩ := h.2.2 _ hmem
  have := fmtInteger_injective _ _ heq
  omega

theorem handleAllocate_allocations (w : ResponseWriter) (amount : String) (s : State) :
    (handleAllocate w amount s).2.allocations =
      mapSet s.allocations (fmtInteger (wrapInt (s.count + 1)))
        (Memory.alloc { size := (Atoi amount).1, memory := 0 }) := rfl

theorem KeysInRange_wrap (s : State) (h : KeysInRange s) (hhi : s.count < maxInt) :
    wrapInt (s.count + 1) = s.count + 1 :=
  wrapInt_succ _ (le_trans (by decide) h.1) hhi

theorem handleAllocate_cons (w : ResponseWriter) (amount : String) (s : State)
    (h : KeysInRange s) (hhi : s.count < maxInt) :
    (handleAllocate w amount s).2.allocations =
      (fmtInteger (s.count + 1), Memory.alloc { size := (Atoi amount).1, memory := 0 }) ::
        s.allocations := by
  rw [handleAllocate_allocations, KeysInRange_wrap s h hhi, mapSet,
    mapDelete_of_not_mem _ _ (fresh_id_not_mem s h)]

theorem KeysInRange_freshState (color : String) : KeysInRange (freshState color) := by
  refine ⟨le_refl _, ?_, ?_⟩
  · simp [keys, freshState]
  · intro key hk
    simp [keys, freshState] at hk

theorem KeysInRange_mapDelete (s : State) (id : String) (h : KeysInRange s) :
    KeysInRange { s with allocations := mapDelete s.allocations id } := by
  refine ⟨h.1, nodup_keys_mapDelete _ _ h.2.1, ?_⟩
  intro key hk
  exact h.2.2 key (mem_keys_mapDelete _ _ _ hk).1

theorem KeysInRange_serve (r : Request) (s : State) (h : KeysInRange s)
    (hb : s.count + (countAllocate [r] : Int) ≤ maxInt) :
    KeysInRange (serve r s).2 := by
  cases r with
  | root => exact h
  | health => exact h
  | allocations => exact h
  | clear =>
    refine ⟨h.1, ?_, ?_⟩
    · show (keys (handleClear newResponseWriter s).2.allocations).Nodup
      rw [handleClear_allocations]; simp [keys]
    · intro key hk
      have hk2 : key ∈ keys (handleClear newResponseWriter s).2.allocations := hk
      rw [handleClear_allocations] at hk2
      simp [keys] at hk2
  | deallocate id =>
    simp only [serve, handleDeallocate]
    cases mapGet s.allocations id with
    | none => exact h
    | some v => exact KeysInRange_mapDelete s id h
  | allocate amount =>
    have hhi : s.count < maxInt := by
      simp only [countAllocate] at hb
      push_cast at hb
      omega
    have hc : (serve (Request.allocate amount) s).2.count = s.count + 1 :=
      KeysInRange_wrap s h hhi
    have ha : (serve (Request.allocate amount) s).2.allocations =
        (fmtInteger (s.count + 1), Memory.alloc { size := (Atoi amount).1, memory := 0 }) ::
          s.allocations := handleAllocate_cons _ _ _ h hhi
    refine ⟨?_, ?_, ?_⟩
    · rw [hc]; have := h.1; omega
    · rw [ha]
      simp only [keys, List.map_cons, List.nodup_cons]
      exact ⟨fresh_id_not_mem s h, h.2.1⟩
    · intro key hk
      rw [ha] at hk
      simp only [keys, List.map_cons, List.mem_cons] at hk
      rw [hc]
      rcases hk with hk | hk
      · exact ⟨s.count + 1, by have := h.1; omega, le_refl _, hk⟩
      · obtain ⟨k, h1, h2, h3⟩ := h.2.2 key hk
        exact ⟨k, h1, by omega, h3⟩

theorem KeysInRange_run (reqs : List Request) (s : State) (h : KeysInRange s)
    (hb : s.count + (countAllocate reqs : Int) ≤ maxInt) :
    KeysInRange (run s reqs) := by
  induction reqs generalizing s with
  | nil => exact h
  | cons r rest ih =>
    have hnn : (0 : Int) ≤ (countAllocate rest : Int) := Int.natCast_nonneg _
    rw [countAllocate_cons] at hb
    push_cast at hb
    have hlo : minInt ≤ s.count := le_trans (by decide) h.1
    have hc := serve_count_eq r s hlo (by omega)
    exact ih _ (KeysInRange_serve r s h (by omega)) (by rw [hc]; omega)

/-- The states reached from the fresh state by a sequence of requests with
fewer than 2^63 - 1 allocate requests satisfy the invariant, and their counter
is the number of allocate requests, below 2^63 - 1. -/
theorem reachable_inv (color : String) (reqs : List Request)
    (hb : (countAllocate reqs : Int) < maxInt) :
    KeysInRange (run (freshState color) reqs) ∧
      (run (freshState color) reqs).count < maxInt := by
  have hz : (freshState color).count = 0 := rfl
  refine ⟨KeysInRange_run reqs _ (KeysInRange_freshState color) (by rw [hz]; omega), ?_⟩
  rw [run_count reqs _ (by rw [hz]; decide) (by rw [hz]; omega), hz]
  omega

/-- C16: in every state reached from the fresh state by a sequence of
requests (with fewer than 2^63 - 1 allocate requests, so that the 64-bit
counter has not reached its largest value), every key of the registry is the
decimal string of an integer `k` with `1 ≤ k ≤ count` and no key occurs
twice; hence the id `handleAllocate` creates is not yet a key, and
`handleAllocate` (whatever the amount) puts one new entry in front of the
entries already there: one entry more, every earlier key looked up as
before. -/
theorem reachable_keys (color : String) (reqs : List Request) (amount : String)
    (hb : (countAllocate reqs : Int) < maxInt) :
    (∀ key ∈ keys (run (freshState color) reqs).allocations,
      ∃ k : Int, 1 ≤ k ∧ k ≤ (run (freshState color) reqs).count ∧ key = fmtInteger k) ∧
    (keys (run (freshState color) reqs).allocations).Nodup ∧
    fmtInteger ((run (freshState color) reqs).count + 1) ∉
      keys (run (freshState color) reqs).allocations ∧
    (handleAllocate newResponseWriter amount (run (freshState color) reqs)).2.allocations.length =
      (run (freshState color) reqs).allocations.length + 1 ∧
    (∃ m, (handleAllocate newResponseWriter amount (run (freshState color) reqs)).2.allocations =
      (fmtInteger ((run (freshState color) reqs).count + 1), m) ::
        (run (freshState color) reqs).allocations) ∧
    ∀ key ∈ keys (run (freshState color) reqs).allocations,
      mapGet (handleAllocate newResponseWriter amount
          (run (freshState color) reqs)).2.allocations key =
        mapGet (run (freshState color) reqs).allocations key := by
  obtain ⟨hinv, hhi⟩ := reachable_inv color reqs hb
  have hfresh := fresh_id_not_mem _ hinv
  have hcons := handleAllocate_cons newResponseWriter amount _ hinv hhi
  refine ⟨hinv.2.2, hinv.2.1, hfresh, ?_, ⟨_, hcons⟩, ?_⟩
  · rw [hcons]; simp
  · intro key hk
    rw [handleAllocate_allocations, KeysInRange_wrap _ hinv hhi]
    apply mapGet_mapSet_ne
    intro heq
    exact hfresh (heq ▸ hk)

/-- Witness of C16: after allocate, allocate, deallocate of id 1, the id of
the next allocate, 3, is not a key. -/
theorem reachable_keys_witness :
    (countAllocate [Request.allocate "5", Request.allocate "x", Request.deallocate "1"] : Int) <
      maxInt ∧
    fmtInteger ((run (freshState "c")
        [Request.allocate "5", Request.allocate "x", Request.deallocate "1"]).count + 1) ∉
      keys (run (freshState "c")
        [Request.allocate "5", Request.allocate "x", Request.deallocate "1"]).allocations ∧
    (handleAllocate newResponseWriter "7" (run (freshState "c")
        [Request.allocate "5", Request.allocate "x", Request.deallocate "1"])).2.allocations.length =
      (run (freshState "c")
        [Request.allocate "5", Request.allocate "x", Request.deallocate "1"]).allocations.length
        + 1 :=
  ⟨by decide,
   (reachable_keys "c" [Request.allocate "5", Request.allocate "x", Request.deallocate "1"]
      "7" (by decide)).2.2.1,
   (reachable_keys "c" [Request.allocate "5", Request.allocate "x", Request.deallocate "1"]
      "7" (by decide)).2.2.2.1⟩

/-! ## Allocate followed by deallocate -/

theorem handleDeallocate_after_allocate (amount : String) (s : State) (h : KeysInRange s)
    (hhi : s.count < maxInt) :
    handleDeallocate newResponseWriter (fmtInteger (s.count + 1))
        (handleAllocate newResponseWriter amount s).2 =
      ({ wroteHeader := true, status := 200, body := ["OK"] },
       { s with count := s.count + 1 }) := by
  have hok : formatNoArgs "OK" = "OK" := by decide
  have hcons := handleAllocate_cons newResponseWriter amount s h hhi
  have hcount : (handleAllocate newResponseWriter amount s).2.count = s.count + 1 :=
    KeysInRange_wrap s h hhi
  have hcolor : (handleAllocate newResponseWriter amount s).2.color = s.color := rfl
  have hget : mapGet (handleAllocate newResponseWriter amount s).2.allocations
      (fmtInteger (s.count + 1)) =
      some (Memory.alloc { size := (Atoi amount).1, memory := 0 }) := by
    rw [hcons]; simp [mapGet]
  have hdel : mapDelete (handleAllocate newResponseWriter amount s).2.allocations
      (fmtInteger (s.count + 1)) = s.allocations := by
    rw [hcons]
    have h2 := mapDelete_of_not_mem _ _ (fresh_id_not_mem s h)
    unfold mapDelete at h2 ⊢
    simp only [List.filter_cons, bne_self_eq_false, Bool.false_eq_true, if_false]
    exact h2
  simp only [handleDeallocate, hget]
  rw [Fprintf_new, hok, hdel, hcount, hcolor]

/-- C17: in every state reached from the fresh state (with fewer than
2^63 - 1 allocate requests, so that the 64-bit counter has not reached its
largest value), `handleAllocate` (whose body, for a valid amount, is the id)
followed by `handleDeallocate` on that id answers 200 `"OK"` and gives back
the registry exactly as it was before the allocate, the counter being one
higher; a second `handleDeallocate` on the same id answers 404 `"not found"`
and changes nothing. -/
theorem allocate_then_deallocate (color : String) (reqs : List Request) (amount : String)
    (hb : (countAllocate reqs : Int) < maxInt) :
    ((Atoi amount).2 = none →
      (handleAllocate newResponseWriter amount (run (freshState color) reqs)).1.body =
        [fmtInteger ((run (freshState color) reqs).count + 1)]) ∧
    handleDeallocate newResponseWriter (fmtInteger ((run (freshState color) reqs).count + 1))
        (handleAllocate newResponseWriter amount (run (freshState color) reqs)).2 =
      ({ wroteHeader := true, status := 200, body := ["OK"] },
       { color := (run (freshState color) reqs).color,
         allocations := (run (freshState color) reqs).allocations,
         count := (run (freshState color) reqs).count + 1 }) ∧
    handleDeallocate newResponseWriter (fmtInteger ((run (freshState color) reqs).count + 1))
        (handleDeallocate newResponseWriter
          (fmtInteger ((run (freshState color) reqs).count + 1))
          (handleAllocate newResponseWriter amount (run (freshState color) reqs)).2).2 =
      ({ wroteHeader := true, status := 404, body := ["not found"] },
       { color := (run (freshState color) reqs).color,
         allocations := (run (freshState color) reqs).allocations,
         count := (run (freshState color) reqs).count + 1 }) := by
  obtain ⟨hinv, hhi⟩ := reachable_inv color reqs hb
  have hfresh := fresh_id_not_mem _ hinv
  have h1 := handleDeallocate_after_allocate amount _ hinv hhi
  refine ⟨fun hv => ?_, h1, ?_⟩
  · rw [handleAllocate_valid_body _ _ hv, KeysInRange_wrap _ hinv hhi]
  rw [h1]
  have hnf : formatNoArgs "not found" = "not found" := by decide
  have hg : mapGet (run (freshState color) reqs).allocations
      (fmtInteger ((run (freshState color) reqs).count + 1)) = none :=
    (mapGet_eq_none_iff _ _).2 hfresh
  simp only [handleDeallocate, hg]
  rw [Fprintf_header, hnf]

/-- Witness of C17: after `/allocate/5`, a second allocate and the
deallocate of its id `2`. -/
theorem allocate_then_deallocate_witness :
    (countAllocate [Request.allocate "5"] : Int) < maxInt ∧
    handleDeallocate newResponseWriter
        (fmtInteger ((run (freshState "c") [Request.allocate "5"]).count + 1))
        (handleAllocate newResponseWriter "7" (run (freshState "c") [Request.allocate "5"])).2 =
      ({ wroteHeader := true, status := 200, body := ["OK"] },
       { color := (run (freshState "c") [Request.allocate "5"]).color,
         allocations := (run (freshState "c") [Request.allocate "5"]).allocations,
         count := (run (freshState "c") [Request.allocate "5"]).count + 1 }) :=
  ⟨by decide,
   (allocate_then_deallocate "c" [Request.allocate "5"] "7" (by decide)).2.1⟩

/-! ## The total along allocate and deallocate -/

theorem reportedTotal_eq (order : List (String × Memory)) :
    reportedTotal order = wrapInt (sumSizes order) :=
  rangeAllocations_total_zero order newResponseWriter

theorem handleAllocations_last (order : List (String × Memory)) (s : State) :
    (handleAllocations order newResponseWriter s).1.body.getLast? =
      some ("total " ++ fmtInteger (reportedTotal order) ++ "\n") := by
  rw [handleAllocations_body]
  simp [reportedTotal, Sprintf_total]

theorem sumSizes_mapDelete (m : List (String × Memory)) (id : String) (v : Memory)
    (hn : (keys m).Nodup) (hg : mapGet m id = some v) :
    sumSizes (mapDelete m id) = sumSizes m - v.size := by
  induction m with
  | nil => simp [mapGet] at hg
  | cons e rest ih =>
    simp only [keys, List.map_cons, List.nodup_cons] at hn
    by_cases he : e.1 = id
    · have hv : v = e.2 := by
        simp [mapGet, he] at hg
        exact hg.symm
      have hnot : id ∉ keys rest := by rw [← he]; exact hn.1
      have hrest := mapDelete_of_not_mem rest id hnot
      unfold mapDelete at hrest ⊢
      have hb : (e.1 != id) = false := by simp [he]
      rw [List.filter_cons, hb]
      simp only [Bool.false_eq_true, if_false]
      rw [hrest, hv]
      simp [sumSizes]
    · have hg2 : mapGet rest id = some v := by
        simpa [mapGet, he] using hg
      have := ih hn.2 hg2
      unfold mapDelete at this ⊢
      have hb : (e.1 != id) = true := by simp [he]
      rw [List.filter_cons, hb]
      simp only [if_true]
      simp only [sumSizes, List.map_cons, List.sum_cons] at this ⊢
      rw [this]; ring

/-- C18, the claim as stated is false: after `/allocate/4611686018427387904`
on a new process the reported total is 4611686018427387904; a second,
valid, `/allocate/4611686018427387904` brings it to -9223372036854775808,
which is not the earlier total plus the amount. -/
theorem total_raise_counterexample :
    Atoi "4611686018427387904" = (4611686018427387904, none) ∧
    (handleAllocations
        (run (freshState "c") [Request.allocate "4611686018427387904"]).allocations
        newResponseWriter
        (run (freshState "c") [Request.allocate "4611686018427387904"])).1.body =
      ["1 => 4611686018427387904\n", "total 4611686018427387904\n"] ∧
    (handleAllocations
        (run (freshState "c") [Request.allocate "4611686018427387904",
          Request.allocate "4611686018427387904"]).allocations
        newResponseWriter
        (run (freshState "c") [Request.allocate "4611686018427387904",
          Request.allocate "4611686018427387904"])).1.body =
      ["2 => 4611686018427387904\n", "1 => 4611686018427387904\n",
       "total -9223372036854775808\n"] ∧
    (4611686018427387904 : Int) + 4611686018427387904 ≠ -9223372036854775808 := by
  decide

theorem KeysWrapped_count_succ (s : State) (n : Nat) (h : KeysWrapped s n) :
    wrapInt (s.count + 1) = wrapInt ((n + 1 : Nat) : Int) := by
  rw [h.1, wrapInt_add]
  push_cast
  rfl

theorem KeysWrapped_fresh_id (s : State) (n : Nat) (h : KeysWrapped s n)
    (hb : n + 1 < 18446744073709551616) :
    fmtInteger (wrapInt (s.count + 1)) ∉ keys s.allocations := by
  intro hmem
  obtain ⟨k, hk1, hk2, heq⟩ := h.2.2 _ hmem
  rw [KeysWrapped_count_succ s n h] at heq
  have h3 := fmtInteger_injective _ _ heq
  unfold wrapInt at h3
  push_cast at h3
  omega

theorem KeysWrapped_cons (w : ResponseWriter) (amount : String) (s : State) (n : Nat)
    (h : KeysWrapped s n) (hb : n + 1 < 18446744073709551616) :
    (handleAllocate w amount s).2.allocations =
      (fmtInteger (wrapInt (s.count + 1)),
        Memory.alloc { size := (Atoi amount).1, memory := 0 }) :: s.allocations := by
  rw [handleAllocate_allocations, mapSet,
    mapDelete_of_not_mem _ _ (KeysWrapped_fresh_id s n h hb)]

theorem KeysWrapped_freshState (color : String) : KeysWrapped (freshState color) 0 := by
  have h0 : (0 : Int) = wrapInt ((0 : Nat) : Int) := by decide
  refine ⟨h0, ?_, ?_⟩
  · simp [keys, freshState]
  · intro key hk
    simp [keys, freshState] at hk

theorem KeysWrapped_serve (r : Request) (s : State) (n : Nat) (h : KeysWrapped s n)
    (hb : n + countAllocate [r] < 18446744073709551616) :
    KeysWrapped (serve r s).2 (n + countAllocate [r]) := by
  cases r with
  | root => exact h
  | health => exact h
  | allocations => exact h
  | clear =>
    refine ⟨h.1, ?_, ?_⟩
    · show (keys (handleClear newResponseWriter s).2.allocations).Nodup
      rw [handleClear_allocations]; simp [keys]
    · intro key hk
      have hk2 : key ∈ keys (handleClear newResponseWriter s).2.allocations := hk
      rw [handleClear_allocations] at hk2
      simp [keys] at hk2
  | deallocate id =>
    simp only [serve, handleDeallocate, countAllocate, Nat.add_zero]
    cases mapGet s.allocations id with
    | none => exact h
    | some v =>
      refine ⟨h.1, nodup_keys_mapDelete _ _ h.2.1, ?_⟩
      intro key hk
      exact h.2.2 key (mem_keys_mapDelete _ _ _ hk).1
  | allocate amount =>
    have hb1 : n + 1 < 18446744073709551616 := by
      simpa [countAllocate] using hb
    have hc : (serve (Request.allocate amount) s).2.count =
        wrapInt ((n + 1 : Nat) : Int) := KeysWrapped_count_succ s n h
    have ha : (serve (Request.allocate amount) s).2.allocations =
        (fmtInteger (wrapInt (s.count + 1)),
          Memory.alloc { size := (Atoi amount).1, memory := 0 }) :: s.allocations :=
      KeysWrapped_cons _ _ _ n h hb1
    have hn : n + countAllocate [Request.allocate amount] = n + 1 := by
      simp [countAllocate]
    rw [hn]
    refine ⟨hc, ?_, ?_⟩
    · rw [ha]
      simp only [keys, List.map_cons, List.nodup_cons]
      exact ⟨KeysWrapped_fresh_id s n h hb1, h.2.1⟩
    · intro key hk
      rw [ha] at hk
      simp only [keys, List.map_cons, List.mem_cons] at hk
      rcases hk with hk | hk
      · exact ⟨n + 1, by omega, le_refl _, by rw [hk, KeysWrapped_count_succ s n h]⟩
      · obtain ⟨k, h1, h2, h3⟩ := h.2.2 key hk
        exact ⟨k, h1, by omega, h3⟩

theorem KeysWrapped_run (reqs : List Request) (s : State) (n : Nat) (h : KeysWrapped s n)
    (hb : n + countAllocate reqs < 18446744073709551616) :
    KeysWrapped (run s reqs) (n + countAllocate reqs) := by
  induction reqs generalizing s n with
  | nil => exact h
  | cons r rest ih =>
    rw [countAllocate_cons] at hb ⊢
    have := ih _ (n + countAllocate [r]) (KeysWrapped_serve r s n h (by omega)) (by omega)
    simp only [run]
    rw [← Nat.add_assoc]
    exact this

/-- C18, amended: in every state reached from the fresh state (by a sequence
with fewer than 2^64 - 1 allocate requests, so that no id has been handed out
twice), the last line of `handleAllocations` is `"total {t}\n"` with `t` the
reported total; a `handleAllocate` call with a valid amount `n` changes the
reported total from `t` to `t + n` wrapped around to the signed 64-bit range,
and a successful `handleDeallocate` of an id whose entry has size `v` changes
it to `t - v` wrapped around likewise; the change is exactly `+n`, `-v`
whenever the result lies between -2^63 and 2^63 - 1. -/
theorem total_change (color : String) (reqs : List Request)
    (order : List (String × Memory))
    (ho : order.Perm (run (freshState color) reqs).allocations)
    (hb : countAllocate reqs + 1 < 18446744073709551616) :
    (handleAllocations order newResponseWriter (run (freshState color) reqs)).1.body.getLast? =
      some ("total " ++ fmtInteger (reportedTotal order) ++ "\n") ∧
    (∀ (amount : String) (n : Int) (order2 : List (String × Memory)),
      Atoi amount = (n, none) →
      order2.Perm (handleAllocate newResponseWriter amount
        (run (freshState color) reqs)).2.allocations →
      reportedTotal order2 = wrapInt (reportedTotal order + n) ∧
      (minInt ≤ reportedTotal order + n → reportedTotal order + n ≤ maxInt →
        reportedTotal order2 = reportedTotal order + n)) ∧
    (∀ (id : String) (m : Memory) (order2 : List (String × Memory)),
      mapGet (run (freshState color) reqs).allocations id = some m →
      order2.Perm (handleDeallocate newResponseWriter id
        (run (freshState color) reqs)).2.allocations →
      (handleDeallocate newResponseWriter id (run (freshState color) reqs)).1.status = 200 ∧
      reportedTotal order2 = wrapInt (reportedTotal order - m.size) ∧
      (minInt ≤ reportedTotal order - m.size → reportedTotal order - m.size ≤ maxInt →
        reportedTotal order2 = reportedTotal order - m.size)) := by
  have hinv0 := KeysWrapped_run reqs (freshState color) 0 (KeysWrapped_freshState color)
    (by omega)
  rw [Nat.zero_add] at hinv0
  refine ⟨handleAllocations_last _ _, ?_, ?_⟩
  · intro amount n order2 ha ho2
    have hcons := KeysWrapped_cons newResponseWriter amount _ _ hinv0 hb
    rw [ha] at hcons
    have hsum : sumSizes order2 = sumSizes order + n := by
      rw [sumSizes_perm _ _ ho2, hcons, sumSizes_perm _ _ ho]
      simp only [sumSizes, List.map_cons, List.sum_cons]
      show n + _ = _
      ring
    have h1 : reportedTotal order2 = wrapInt (reportedTotal order + n) := by
      rw [reportedTotal_eq, reportedTotal_eq, wrapInt_add, hsum]
    exact ⟨h1, fun hlo hhi => by rw [h1, wrapInt_of_inRange _ hlo hhi]⟩
  · intro id m order2 hg ho2
    have hok : formatNoArgs "OK" = "OK" := by decide
    have hr : handleDeallocate newResponseWriter id (run (freshState color) reqs) =
        (Fprintf newResponseWriter "OK",
          { run (freshState color) reqs with
            allocations := mapDelete (run (freshState color) reqs).allocations id }) := by
      simp [handleDeallocate, hg]
    rw [hr] at ho2 ⊢
    have hsum : sumSizes order2 = sumSizes order - m.size := by
      rw [sumSizes_perm _ _ ho2, sumSizes_perm _ _ ho]
      exact sumSizes_mapDelete _ _ _ hinv0.2.1 hg
    have h1 : reportedTotal order2 = wrapInt (reportedTotal order - m.size) := by
      rw [reportedTotal_eq, reportedTotal_eq, sub_eq_add_neg, wrapInt_add, hsum, sub_eq_add_neg]
    refine ⟨by rw [Fprintf_new], h1, fun hlo hhi => by rw [h1, wrapInt_of_inRange _ hlo hhi]⟩

/-- Witness of C18 (amended): after `/allocate/5`, visiting the registry in
its list order. -/
theorem total_change_witness :
    (run (freshState "c") [Request.allocate "5"]).allocations.Perm
      (run (freshState "c") [Request.allocate "5"]).allocations ∧
    countAllocate [Request.allocate "5"] + 1 < 18446744073709551616 ∧
    (handleAllocations (run (freshState "c") [Request.allocate "5"]).allocations
        newResponseWriter (run (freshState "c") [Request.allocate "5"])).1.body.getLast? =
      some ("total " ++
        fmtInteger (reportedTotal (run (freshState "c") [Request.allocate "5"]).allocations) ++
        "\n") :=
  ⟨List.Perm.refl _, by decide,
   (total_change "c" [Request.allocate "5"]
      (run (freshState "c") [Request.allocate "5"]).allocations (List.Perm.refl _)
      (by decide)).1⟩

/-! ## The model on concrete inputs -/

theorem formatNoArgs_samples :
    formatNoArgs "OK" = "OK" ∧
    formatNoArgs "100%" = "100%!(NOVERB)" ∧
    formatNoArgs "50%." = "50%!.(MISSING)" ∧
    formatNoArgs "%.3d %.x" = "%!d(MISSING) %!x(MISSING)" ∧
    formatNoArgs "%d%%" = "%!d(MISSING)%" ∧
    formatNoArgs "a%[1]*.3x%-5.q" = "a%!(BADWIDTH)%!x(BADINDEX)%!q(MISSING)" := by
  decide

theorem Atoi_samples :
    Atoi "5" = (5, none) ∧
    Atoi "+5" = (5, none) ∧
    Atoi "-9223372036854775808" = (-9223372036854775808, none) ∧
    Atoi "9223372036854775808" = (9223372036854775807, some NumError.ErrRange) ∧
    Atoi "99999999999999999999x" = (9223372036854775807, some NumError.ErrRange) ∧
    Atoi "+" = (0, some NumError.ErrSyntax) ∧
    Atoi "1_000" = (0, some NumError.ErrSyntax) := by
  decide

theorem serve_samples :
    allocateBodies (responses (freshState "c")
      [Request.allocate "5", Request.deallocate "1", Request.allocate "7", Request.clear,
       Request.allocate "0"]) = [["1"], ["2"], ["3"]] ∧
    (handleAllocations [("2", ⟨7, 7340032⟩), ("1", ⟨5, 5242880⟩)] newResponseWriter
      { color := "c", allocations := [("1", ⟨5, 5242880⟩), ("2", ⟨7, 7340032⟩)],
        count := 2 }).1.body = ["2 => 7\n", "1 => 5\n", "total 12\n"] := by
  decide

end Server
